import Mathlib

/-!
Shallow embedding of `src/json_to_excel.js` (JSON-report → Excel pipeline).

JavaScript values appearing in report rows are modelled by `Val`
(undefined, null, boolean, number, string); JS numbers are modelled as
exact rationals (ℚ), so `NaN` is represented by `Option ℚ` at coercion
boundaries (`none` = NaN).  Rows (flat JSON objects) are association
lists from column name to `Val`, preserving key insertion order, which
mirrors JS object key order for the non-integer-like keys this program
uses.  String-to-number conversions model the decimal fragment of the
JS grammar (sign, digits, optional fraction); hexadecimal and exponent
literals and locale-aware collation are not exercised by this program's
data and are not modelled.
-/

/-- A scalar value as it appears in a report row: the spec's data model
(numbers, text, duration-formatted strings) plus SQL null and JS undefined
for absent data.  Booleans do not occur in these SQL-exported reports. -/
inductive Val where
  | undef : Val
  | null : Val
  | num : ℚ → Val
  | str : String → Val
deriving DecidableEq

/-- A report row: JS object as ordered association list (first binding wins on lookup). -/
abbrev Row := List (String × Val)

/-- Property read `r[k]`: absent keys yield `undefined`, as in JS. -/
def jsGet (r : Row) (k : String) : Val :=
  match List.lookup k r with
  | some v => v
  | none => Val.undef

/-- Key list of a row, in insertion order (`Object.keys`). -/
def Row.keys (r : Row) : List String := r.map Prod.fst

/-- Property test `r.hasOwnProperty(k)`. -/
def Row.has (r : Row) (k : String) : Bool := decide (k ∈ r.keys)

/-- Property write `r[k] = v`: overwrite the first binding in place, else append. -/
def setVal : Row → String → Val → Row
  | [], k, v => [(k, v)]
  | (k0, v0) :: r, k, v =>
    if k0 = k then (k, v) :: r else (k0, v0) :: setVal r k v

/-- JS falsiness of a value (`!v`); NaN does not arise as a stored `Val` here. -/
def Val.falsy : Val → Bool
  | .undef => true
  | .null => true
  | .num q => q == 0
  | .str s => s == ""

/-- Whitespace recognised by the JS trimming steps (ASCII fragment). -/
def isWs (c : Char) : Bool := c == ' ' || c == '\t' || c == '\n' || c == '\r'

/-- Decimal digit test. -/
def isDig (c : Char) : Bool := '0' ≤ c && c ≤ '9'

/-- Value of a decimal digit character. -/
def digVal (c : Char) : Nat := c.toNat - 48

/-- Value of a digit string, most significant first. -/
def digitsToNat (l : List Char) : Nat := l.foldl (fun acc c => 10 * acc + digVal c) 0

/-- Decimal digits of `n`, most significant first, via explicit fuel
(structural recursion keeps kernel reduction available). -/
def natDigitsAux : Nat → Nat → List Char
  | 0, _ => []
  | fuel + 1, n =>
    if n < 10 then [Nat.digitChar n]
    else natDigitsAux fuel (n / 10) ++ [Nat.digitChar (n % 10)]

/-- Decimal rendering of a natural number (JS number-to-string for integers). -/
def natDigits (n : Nat) : List Char := natDigitsAux (n + 1) n

/-- Decimal rendering of an integer (JS number-to-string for integers). -/
def intChars (i : Int) : List Char :=
  if i < 0 then '-' :: natDigits (-i).toNat else natDigits i.toNat

/-- String form of a natural number used when building names like `_1`, `_2`. -/
def natStr (n : Nat) : String := ⟨natDigits n⟩

/-- Longest digit prefix with its value: `none` when no leading digit. -/
def digitsPrefixVal (l : List Char) : Option Nat :=
  match l.takeWhile isDig with
  | [] => none
  | ds => some (digitsToNat ds)

/-- Model of `parseInt(s, 10)`: skip whitespace, optional sign, longest digit
prefix; NaN (`none`) when no digits follow. -/
def jsParseInt (l : List Char) : Option Int :=
  match l.dropWhile isWs with
  | [] => none
  | c :: rest =>
    if c = '-' then (digitsPrefixVal rest).map (fun n => -(n : Int))
    else if c = '+' then (digitsPrefixVal rest).map (fun n => (n : Int))
    else (digitsPrefixVal (c :: rest)).map (fun n => (n : Int))

/-- Unsigned decimal literal prefix `digits [. digits]`: value plus unconsumed
rest; `none` when no digit is present at all. -/
def decPrefixCore (l : List Char) : Option (ℚ × List Char) :=
  let ds := l.takeWhile isDig
  let r1 := l.dropWhile isDig
  match r1 with
  | '.' :: r2 =>
    let fs := r2.takeWhile isDig
    if ds = [] ∧ fs = [] then none
    else some ((digitsToNat ds : ℚ) + (digitsToNat fs : ℚ) / (10 : ℚ) ^ fs.length,
               r2.dropWhile isDig)
  | _ => if ds = [] then none else some ((digitsToNat ds : ℚ), r1)

/-- Signed decimal literal prefix (shared by `parseFloat` and `Number`). -/
def signedDecPrefix (l : List Char) : Option (ℚ × List Char) :=
  match l with
  | [] => decPrefixCore []
  | c :: rest =>
    if c = '-' then (decPrefixCore rest).map (fun p => (-p.1, p.2))
    else if c = '+' then decPrefixCore rest
    else decPrefixCore (c :: rest)

/-- Model of `parseFloat(s)`: skip whitespace then longest decimal prefix;
`none` is NaN. -/
def jsParseFloat (l : List Char) : Option ℚ :=
  (signedDecPrefix (l.dropWhile isWs)).map Prod.fst

/-- Model of `Number(s)` on strings: trimmed-empty is 0; otherwise the whole
trimmed string must be one decimal literal, else NaN (`none`). -/
def jsStrNumber (s : String) : Option ℚ :=
  let l := s.data.dropWhile isWs
  if l = [] then some 0
  else
    match signedDecPrefix l with
    | some (q, rest) => if rest.all isWs then some q else none
    | none => none

/-- Model of `Number(v)` (ToNumber); `none` is NaN. -/
def toNumberV : Val → Option ℚ
  | .undef => none
  | .null => some 0
  | .num q => some q
  | .str s => jsStrNumber s

/-- Model of `parseFloat(v)` after JS string coercion; numbers round-trip
through their decimal rendering, other non-strings coerce to words that
parse as NaN. -/
def parseFloatV : Val → Option ℚ
  | .num q => some q
  | .str s => jsParseFloat s.data
  | _ => none

/-- Split a character list at every occurrence of `sep`
(JS `String.prototype.split` with a one-character separator). -/
def splitOnChar (sep : Char) : List Char → List (List Char)
  | [] => [[]]
  | c :: cs =>
    if c = sep then [] :: splitOnChar sep cs
    else
      match splitOnChar sep cs with
      | [] => [[c]]
      | h :: t => (c :: h) :: t

/-- Core of `parseDuration` on the characters of a duration string
(`json_to_excel.js` lines 22–35): split on `:`, `parseInt` hours and
minutes, `parseFloat` seconds, each `|| 0`. -/
def parseDurationChars (l : List Char) : ℚ :=
  let parts := splitOnChar ':' l
  if parts.length < 2 then 0
  else
    let hours := (jsParseInt (parts.getD 0 [])).getD 0
    let minutes := (jsParseInt (parts.getD 1 [])).getD 0
    let seconds := ((parts.get? 2).bind (fun p => jsParseFloat p)).getD 0
    (hours : ℚ) * 3600 + (minutes : ℚ) * 60 + seconds

/-- `parseDuration(v)`: falsy or non-string input is 0 seconds. -/
def parseDurationV (v : Val) : ℚ :=
  match v with
  | .str s => if s = "" then 0 else parseDurationChars s.data
  | _ => 0

/-- Truncation toward zero (JS number-to-integer inside `%`). -/
def jsTrunc (q : ℚ) : Int := if 0 ≤ q then ⌊q⌋ else ⌈q⌉

/-- JS remainder `a % b` (sign follows the dividend). -/
def jsRem (a b : ℚ) : ℚ := a - b * (jsTrunc (a / b) : ℚ)

/-- `padStart(2, "0")`. -/
def pad2 (l : List Char) : List Char :=
  if l.length = 0 then ['0', '0'] else if l.length = 1 then '0' :: l else l

/-- Characters of `formatDuration(totalSeconds)`
(`json_to_excel.js` lines 38–47). -/
def formatDurationChars (q : ℚ) : List Char :=
  let hours : Int := ⌊q / 3600⌋
  let remainder : ℚ := jsRem q 3600
  let minutes : Int := ⌊remainder / 60⌋
  let seconds : Int := ⌊jsRem remainder 60⌋
  intChars hours ++ (':' :: (pad2 (intChars minutes) ++ (':' :: pad2 (intChars seconds))))

/-- `formatDuration(totalSeconds)` as a string. -/
def formatDuration (q : ℚ) : String := ⟨formatDurationChars q⟩

/-- Magnitude part of `toFixed(2)`: round to the nearest hundredth, ties to
the larger scaled integer, as the ECMAScript algorithm does. -/
def toFixed2Abs (x : ℚ) : String :=
  let n : Int := ⌊x * 100 + 1 / 2⌋
  ⟨natDigits (n.toNat / 100) ++ '.' :: pad2 (natDigits (n.toNat % 100))⟩

/-- `toFixed(2)` for a (non-NaN) number. -/
def toFixed2 (q : ℚ) : String :=
  if q < 0 then "-" ++ toFixed2Abs (-q) else toFixed2Abs q

/-! ## Generic list machinery shared by the pipeline -/

/-- Prefix test on strings (JS startsWith), via character lists so that
kernel reduction stays available. -/
def strStartsWith (s p : String) : Bool := p.data.isPrefixOf s.data

/-- Suffix test on strings (case handled by callers). -/
def strEndsWith (s p : String) : Bool := p.data.isSuffixOf s.data

/-- ASCII upper-casing of one character. -/
def upChar (c : Char) : Char :=
  if 'a' ≤ c ∧ c ≤ 'z' then Char.ofNat (c.toNat - 32) else c

/-- ASCII lower-casing of one character. -/
def lowChar (c : Char) : Char :=
  if 'A' ≤ c ∧ c ≤ 'Z' then Char.ofNat (c.toNat + 32) else c

/-- ASCII fragment of JS toUpperCase. -/
def strUpper (s : String) : String := ⟨s.data.map upChar⟩

/-- ASCII fragment of JS toLowerCase. -/
def strLower (s : String) : String := ⟨s.data.map lowChar⟩

/-- Substring test on character lists (`String.prototype.includes`). -/
def containsSub (hay needle : List Char) : Bool :=
  match hay with
  | [] => needle.isEmpty
  | c :: t => needle.isPrefixOf (c :: t) || containsSub t needle

/-- `s.includes(sub)` for strings. -/
def strIncludes (s sub : String) : Bool := containsSub s.data sub.data

/-- First-occurrence deduplication (`[...new Set(xs)]`). -/
def insertionDedup (l : List Val) : List Val :=
  l.foldl (fun acc v => if v ∈ acc then acc else acc ++ [v]) []

/-- Insert `a` before the first element `b` with `le a b`. -/
def stableInsert (le : α → α → Bool) (a : α) : List α → List α
  | [] => [a]
  | b :: l => if le a b then a :: b :: l else b :: stableInsert le a l

/-- Comparator sort (model of JS `Array.prototype.sort`, which is stable; the
comparators in this program are consistent on the data they are applied to). -/
def jsSortBy (le : α → α → Bool) (l : List α) : List α := l.foldr (stableInsert le) []

/-- JS `<` on two values: string–string compares lexicographically, otherwise
both sides coerce with ToNumber and NaN comparisons are false. -/
def valLtB (a b : Val) : Bool :=
  match a, b with
  | .str x, .str y => decide (x < y)
  | _, _ =>
    match toNumberV a, toNumberV b with
    | some x, some y => decide (x < y)
    | _, _ => false

/-! ## Month/unit gap filler (`fillMissingMonths`, lines 196–304) -/

/-- The canonical 12-label calendar `MONTHS_2025`. -/
def MONTHS_2025 : List String :=
  ["Enero 2025", "Febrero 2025", "Marzo 2025", "Abril 2025", "Mayo 2025", "Junio 2025",
   "Julio 2025", "Agosto 2025", "Septiembre 2025", "Octubre 2025", "Noviembre 2025",
   "Diciembre 2025"]

/-- Index of a period value in the canonical calendar (the `monthIndex` map);
out-of-calendar values get the list length, but the sort below only ever
compares rows whose period is canonical. -/
def monthIdxV (v : Val) : Nat := MONTHS_2025.findIdx (fun m => Val.str m == v)

/-- The sort comparator of `fillMissingMonths` (lines 294–301), as a
less-or-equal test (comparator result ≤ 0). -/
def rowLe (a b : Row) : Bool :=
  let ma := monthIdxV (jsGet a "Mes_Anio")
  let mb := monthIdxV (jsGet b "Mes_Anio")
  if ma ≠ mb then decide (ma < mb)
  else if valLtB (jsGet a "Nombre_Unidad") (jsGet b "Nombre_Unidad") then true
  else if valLtB (jsGet b "Nombre_Unidad") (jsGet a "Nombre_Unidad") then false
  else true

/-- Per-column default of a synthesized zero row (lines 242–257). -/
def zeroVal (k : String) (month : String) (unit : Val) : Val :=
  if k = "Mes_Anio" then .str month
  else if k = "Nombre_Unidad" then unit
  else if strStartsWith k "Cantidad" || strStartsWith k "Total_Tickets" ||
          k = "insertId" || k = "affectedRows" then .num 0
  else if strIncludes k "Tiempo" then .str "00:00:00"
  else if strIncludes k "Porcentaje" then .str "0.00"
  else .num 0

/-- The synthesized zero row for one missing (unit, month) slot. -/
def zeroRow (keys : List String) (month : String) (unit : Val) : Row :=
  keys.map (fun k => (k, zeroVal k month unit))

/-- The distinct unit values of the series, in first-occurrence order
(line 223). -/
def gapUnits (data : List Row) : List Val :=
  insertionDedup (data.map (fun r => jsGet r "Nombre_Unidad"))

/-- The rows of one unit (line 231). -/
def unitRowsOf (data : List Row) (u : Val) : List Row :=
  data.filter (fun r => jsGet r "Nombre_Unidad" == u)

/-- What the month loop (lines 234–260) pushes for one (unit, month) slot:
the first existing row when the unit has the month, else a zero row. -/
def gapSlot (data : List Row) (keys : List String) (u : Val) (month : String) : List Row :=
  let unitRows := unitRowsOf data u
  let unitMonths := unitRows.map (fun r => jsGet r "Mes_Anio")
  if unitMonths.contains (Val.str month) then
    match unitRows.find? (fun r => jsGet r "Mes_Anio" == Val.str month) with
    | some r => [r]
    | none => []
  else [zeroRow keys month u]

/-- What the unit loop (lines 229–261) pushes for one unit. -/
def gapBlock (data : List Row) (keys : List String) (u : Val) : List Row :=
  MONTHS_2025.flatMap (gapSlot data keys u)

/-- `fillMissingMonths(data)` (lines 211–304). -/
def fillMissingMonths (data : List Row) : List Row :=
  match data with
  | [] => data
  | first :: _ =>
    if ¬ (first.has "Mes_Anio" && first.has "Nombre_Unidad") then data
    else jsSortBy rowLe ((gapUnits data).flatMap (gapBlock data first.keys))

/-! ## Rule-dispatched aggregator (`aggregateData`, lines 51–192) -/

/-- One branch of the aggregation dispatch chain of `aggregateData`. -/
inductive StrategyCase where
  | mantenimiento : StrategyCase
  | glitches : StrategyCase
  | ticketsGeneral : StrategyCase
  | etiquetas : StrategyCase
  | fallback : StrategyCase
deriving DecidableEq

/-- `filename.replace(/\.json$/i, "")`. -/
def stripJsonSuffix (name : String) : String :=
  if strEndsWith (strLower name) ".json" then ⟨name.data.take (name.data.length - 5)⟩
  else name

/-- Report-name normalization of `aggregateData` (line 55): extension strip
plus upper-casing (ASCII fragment of `toUpperCase`). -/
def normalizeName (filename : String) : String := strUpper (stripJsonSuffix filename)

/-- The dispatch chain of `aggregateData` (lines 85–108), first match wins. -/
def chooseStrategy (name : String) : StrategyCase :=
  if strIncludes name "MANTENIMIENTO" || strIncludes name "TECNOLOGIA" ||
     strIncludes name "LOST_AND_FOUND" then .mantenimiento
  else if strIncludes name "GLITCHES" then .glitches
  else if name == "TICKETS_GENERAL" || name == "DATOS_GENERALES_UNIDAD_DEPARTAMENTO" ||
          strStartsWith name "DATOS_GENERALES" then .ticketsGeneral
  else if name == "ETIQUETAS_UNIDAD_DEPARTAMENTO" then .etiquetas
  else .fallback

/-- The value `processGenericCounts` stores for one non-privileged column:
the sum of the coerced values when every row coerces (`Number(x) || 0`
turns the impossible per-row NaN into 0), else the empty string. -/
def gcValue (rows : List Row) (k : String) : Val :=
  if rows.all (fun r => (toNumberV (jsGet r k)).isSome) then
    .num (rows.foldl (fun acc r => acc + ((toNumberV (jsGet r k)).getD 0)) 0)
  else .str ""

/-- Loop body of `processGenericCounts` for one column key (lines 121–133). -/
def gcStep (rows : List Row) (s : Row) (k : String) : Row :=
  if k = "Mes_Anio" ∨ k = "Nombre_Unidad" then s
  else setVal s k (gcValue rows k)

/-- `processGenericCounts(summaryRow, rows)` (lines 116–134). -/
def processGenericCounts (summaryRow : Row) (rows : List Row) : Row :=
  ((rows.headD []).keys).foldl (gcStep rows) summaryRow

/-- `processGlitches` (lines 136–139) delegates to the generic strategy. -/
def processGlitches (summaryRow : Row) (rows : List Row) : Row :=
  processGenericCounts summaryRow rows

/-- `processTicketsGeneral(summaryRow, rows)` (lines 141–192).  The branch
conditions read `summaryRow["Cantidad_Tickets"]` back, which at that point
holds exactly the accumulated count. -/
def processTicketsGeneral (summaryRow : Row) (rows : List Row) : Row :=
  let cnt : ℚ :=
    rows.foldl (fun acc r => acc + ((toNumberV (jsGet r "Cantidad_Tickets")).getD 0)) 0
  let s1 := setVal summaryRow "Cantidad_Tickets" (.num cnt)
  let totalTimeProdSec : ℚ :=
    rows.foldl (fun acc r => acc + parseDurationV (jsGet r "Total_Tiempo_Productivo")) 0
  let s2 := setVal s1 "Total_Tiempo_Productivo" (.str (formatDuration totalTimeProdSec))
  let s3 :=
    if 0 < cnt then
      setVal s2 "Promedio_Tiempo_Productivo" (.str (formatDuration (totalTimeProdSec / cnt)))
    else setVal s2 "Promedio_Tiempo_Productivo" (.str "0:00:00")
  let totalEstSec : ℚ :=
    rows.foldl (fun acc r =>
      acc + parseDurationV (jsGet r "Promedio_Tiempo_Estimado") *
        ((toNumberV (jsGet r "Cantidad_Tickets")).getD 0)) 0
  if 0 < cnt then
    let s4 := setVal s3 "Promedio_Tiempo_Estimado" (.str (formatDuration (totalEstSec / cnt)))
    if 0 < totalTimeProdSec then
      setVal s4 "Porcentaje_Cumplimiento" (.str (toFixed2 (totalEstSec / totalTimeProdSec * 100)))
    else setVal s4 "Porcentaje_Cumplimiento" (.str "0.00")
  else
    let s4 := setVal s3 "Promedio_Tiempo_Estimado" (.str "0:00:00")
    setVal s4 "Porcentaje_Cumplimiento" (.str "0.00")

/-- Grouping key of a row (line 65): `row["Nombre_Unidad"] || "N/A"`. -/
def groupKey (r : Row) : Val :=
  let u := jsGet r "Nombre_Unidad"
  if u.falsy then .str "N/A" else u

/-- Append a row to its group, keeping first-occurrence group order
(JS object property insertion order for the string keys this program uses). -/
def addToGroups (gs : List (Val × List Row)) (u : Val) (r : Row) : List (Val × List Row) :=
  match gs with
  | [] => [(u, [r])]
  | (k, rs) :: t => if k = u then (k, rs ++ [r]) :: t else (k, rs) :: addToGroups t u r

/-- The `groups` object of `aggregateData` (lines 59–71). -/
def groupByUnit (data : List Row) : List (Val × List Row) :=
  data.foldl (fun gs r => addToGroups gs (groupKey r) r) []

/-- Apply the dispatched column-aggregation strategy. -/
def runStrategy : StrategyCase → Row → List Row → Row
  | .mantenimiento, s, rows => processGenericCounts s rows
  | .glitches, s, rows => processGlitches s rows
  | .ticketsGeneral, s, rows => processTicketsGeneral s rows
  | .etiquetas, s, rows => processGenericCounts s rows
  | .fallback, s, rows => processGenericCounts s rows

/-- `aggregateData(filename, data)` (lines 51–114). -/
def aggregateData (filename : String) (data : List Row) : List Row :=
  if data.isEmpty then []
  else
    let name := normalizeName filename
    (groupByUnit data).filterMap (fun g =>
      if g.1 = Val.str "N/A" then none
      else
        let summaryRow : Row := [("Mes_Anio", .str "Acumulado 2025"), ("Nombre_Unidad", g.1)]
        some (runStrategy (chooseStrategy name) summaryRow g.2))

/-! ## Pivot matrix builder (`generatePivotTables`, lines 306–462) -/

/-- Preferred display order of the three known units (`UNIT_ORDER`). -/
def UNIT_ORDER : List String :=
  ["Palacio Mundo Imperial", "Princess Mundo Imperial", "Pierre Mundo Imperial"]

/-- `UNIT_ORDER.indexOf(v)` as an optional index. -/
def unitIdx (v : Val) : Option Nat := UNIT_ORDER.findIdx? (fun u => Val.str u == v)

/-- Comparator of `sortUnits` (lines 314–323) as a less-or-equal test;
`localeCompare` is modelled as code-point comparison on strings, the only
values this program compares with it. -/
def unitLe (a b : Val) : Bool :=
  match unitIdx a, unitIdx b with
  | none, none =>
    match a, b with
    | .str x, .str y => decide (x ≤ y)
    | _, _ => true
  | none, some _ => false
  | some _, none => true
  | some i, some j => decide (i ≤ j)

/-- `sortUnits(units)`. -/
def sortUnits (units : List Val) : List Val := jsSortBy unitLe units

/-- Comparator of the month sort in `generatePivotTables` (lines 359–365):
canonical months by calendar index, unknown labels sort after (index 999). -/
def pivotMonthLe (a b : Val) : Bool :=
  let ia := (MONTHS_2025.findIdx? (fun m => Val.str m == a)).getD 999
  let ib := (MONTHS_2025.findIdx? (fun m => Val.str m == b)).getD 999
  decide (ia ≤ ib)

/-- The fixed list of known pivot metrics, in detection order (lines 332–351). -/
def PIVOT_METRICS : List String :=
  ["Cantidad_Tickets", "Cantidad_Total_Tickets_Glitch", "Total_Tickets_Mantenimiento",
   "Total_Tickets_TI", "Total_Tickets_LostAndFound", "Total_Tiempo_Productivo",
   "Promedio_Tiempo_Productivo", "Promedio_Tiempo_Estimado", "Porcentaje_Cumplimiento"]

/-- Metrics present in the first row, in the fixed detection order. -/
def metricsToPivot (data : List Row) : List String :=
  PIVOT_METRICS.filter (fun m => (data.headD []).has m)

/-- Units of the pivot, sorted for display. -/
def pivotUnits (data : List Row) : List Val :=
  sortUnits (insertionDedup (data.map (fun r => jsGet r "Nombre_Unidad")))

/-- Distinct months of the pivot, sorted by calendar index. -/
def pivotMonths (data : List Row) : List Val :=
  jsSortBy pivotMonthLe (insertionDedup (data.map (fun r => jsGet r "Mes_Anio")))

/-- JS object keys are strings; the coercion used when a `Val` becomes a key.
Integers render as decimal strings; non-integer numeric units do not occur. -/
def valKeyStr : Val → String
  | .str s => s
  | .num q => ⟨intChars q.num⟩
  | .null => "null"
  | .undef => "undefined"

/-- One pivot cell (lines 398–407): first matching (month, unit) row's metric
value, with missing rows and null/undefined values replaced by 0. -/
def pivotCell (data : List Row) (mon u : Val) (metric : String) : Val :=
  match data.find? (fun r => jsGet r "Mes_Anio" == mon && jsGet r "Nombre_Unidad" == u) with
  | some record =>
    let v := jsGet record metric
    if v = .undef ∨ v = .null then .num 0 else v
  | none => .num 0

/-- The period rows of one pivot table (lines 395–410). -/
def pivotTableRows (data : List Row) (metric : String) : List Row :=
  (pivotMonths data).map (fun mon =>
    ("Mes", mon) :: (pivotUnits data).map (fun u => (valKeyStr u, pivotCell data mon u metric)))

/-- NaN-propagating addition for the percentage branch of the totals row. -/
def jsAddOpt (a b : Option ℚ) : Option ℚ :=
  match a, b with
  | some x, some y => some (x + y)
  | _, _ => none

/-- The totals value of one unit column (lines 417–454): classify by the first
period row's cell (colon means duration), else by metric name; `none` when
`tableRows` is empty and the code assigns nothing. -/
def pivotTotalCell (metric : String) (tableRows : List Row) (ukey : String) : Option Val :=
  match tableRows with
  | [] => none
  | first :: _ =>
    let firstVal := jsGet first ukey
    let isTime := match firstVal with
      | .str s => containsSub s.data [':']
      | _ => false
    let isPct := strIncludes metric "Porcentaje"
    if isTime then
      let totalSec := tableRows.foldl (fun acc r => acc + parseDurationV (jsGet r ukey)) 0
      if strStartsWith metric "Promedio" then
        let count := (tableRows.filter (fun r => decide (0 < parseDurationV (jsGet r ukey)))).length
        if 0 < count then some (.str (formatDuration (totalSec / (count : ℚ))))
        else some (.str (formatDuration totalSec))
      else some (.str (formatDuration totalSec))
    else if isPct then
      let validRows := tableRows.filter (fun r =>
        match toNumberV (jsGet r ukey) with
        | some q => decide (0 < q)
        | none => false)
      let sum := validRows.foldl (fun acc r => jsAddOpt acc (parseFloatV (jsGet r ukey))) (some 0)
      if 0 < validRows.length then
        some (.str (match sum with
          | some s => toFixed2 (s / (validRows.length : ℚ))
          | none => "NaN"))
      else some (.str "0.00")
    else
      some (.num (tableRows.foldl (fun acc r => acc + ((toNumberV (jsGet r ukey)).getD 0)) 0))

/-- The totals row (`{ Mes: "TOTAL" }` plus one assignment per unit). -/
def pivotTotalRow (data : List Row) (metric : String) : Row :=
  let units := pivotUnits data
  let tableRows := pivotTableRows data metric
  units.foldl (fun row u =>
    match pivotTotalCell metric tableRows (valKeyStr u) with
    | some v => setVal row (valKeyStr u) v
    | none => row) [("Mes", .str "TOTAL")]

/-- The rows pushed for one metric (loop body, lines 369–459): spacer, title,
column header, period rows, totals row.  The `headerRow` object the code
builds at lines 372–374 is discarded there and is not modelled. -/
def pivotBlock (data : List Row) (metric : String) : List Row :=
  let title : Row := [("pivot_title", .str ("COMPARATIVA: " ++ metric))]
  let columnHeader : Row := ("Mes", .str "Mes") :: (pivotUnits data).map (fun u => (valKeyStr u, u))
  [([] : Row), title, columnHeader] ++ pivotTableRows data metric ++ [pivotTotalRow data metric]

/-- `generatePivotTables(data)` (lines 325–462). -/
def generatePivotTables (data : List Row) : List Row :=
  if data.isEmpty then []
  else
    let metrics := metricsToPivot data
    if metrics.isEmpty then []
    else metrics.flatMap (pivotBlock data)

/-! ## Sheet naming (`cleanSheetName` lines 12–19, collision loop lines 566–574) -/

/-- `MAX_SHEET_NAME_LENGTH`. -/
def MAX_SHEET_NAME_LENGTH : Nat := 31

/-- Characters Excel forbids in sheet names, replaced by `_`. -/
def forbiddenChars : List Char := [':', '\\', '/', '?', '*', '[', ']']

/-- `cleanSheetName(name)` (lines 12–19). -/
def cleanSheetName (name : String) : String :=
  let base := stripJsonSuffix name
  let cleaned : List Char := base.data.map (fun c => if c ∈ forbiddenChars then '_' else c)
  if MAX_SHEET_NAME_LENGTH < cleaned.length then ⟨cleaned.take MAX_SHEET_NAME_LENGTH⟩
  else ⟨cleaned⟩

/-- The candidate name tried at a given counter value:
`sheetName.substring(0, MAX_SHEET_NAME_LENGTH - 3) + "_" + counter`. -/
def suffixedName (sheetName : String) (counter : Nat) : String :=
  ⟨sheetName.data.take (MAX_SHEET_NAME_LENGTH - 3)⟩ ++ "_" ++ natStr counter

/-- The collision `while` loop (lines 566–574), with fuel; one more iteration
than there are existing names always suffices because successive candidates
are pairwise distinct. -/
def resolveGo (names : List String) (sheetName : String) : Nat → Nat → String → String
  | 0, _, current => current
  | fuel + 1, counter, current =>
    if names.contains current then
      resolveGo names sheetName fuel (counter + 1) (suffixedName sheetName counter)
    else current

/-- Final sheet name after collision resolution. -/
def resolveSheetName (names : List String) (sheetName : String) : String :=
  resolveGo names sheetName (names.length + 1) 1 sheetName

/-! ## Specification-side definitions

These follow the wording of the specification (and of the claims under
check) rather than the code; refinement theorems below compare them with
the definitions translated from the source. -/

/-- Modelled from the spec: the ordered rule table of §4.3, each rule a
name predicate paired with the strategy it selects, evaluated top-down
with first-match-wins semantics (rules 1, 2, 4 select Generic Counts,
rule 3 selects Tickets-General, rule 5 is the Generic Counts fallback). -/
def specRules : List ((String → Bool) × (Row → List Row → Row)) :=
  [(fun n => strIncludes n "MANTENIMIENTO" || strIncludes n "TECNOLOGIA" ||
      strIncludes n "LOST_AND_FOUND", processGenericCounts),
   (fun n => strIncludes n "GLITCHES", processGenericCounts),
   (fun n => n == "TICKETS_GENERAL" || n == "DATOS_GENERALES_UNIDAD_DEPARTAMENTO" ||
      strStartsWith n "DATOS_GENERALES", processTicketsGeneral),
   (fun n => n == "ETIQUETAS_UNIDAD_DEPARTAMENTO", processGenericCounts)]

/-- Modelled from the spec: the strategy the rule table assigns to a name. -/
def specDispatch (name : String) : Row → List Row → Row :=
  match specRules.find? (fun rule => rule.1 name) with
  | some rule => rule.2
  | none => processGenericCounts

/-- Modelled from the spec (claim C6 wording): the name-pattern default of a
non-privileged column in a synthesized gap row. -/
def defaultValSpec (k : String) : Val :=
  if strStartsWith k "Cantidad" || strStartsWith k "Total_Tickets" ||
     k = "insertId" || k = "affectedRows" then .num 0
  else if strIncludes k "Tiempo" then .str "00:00:00"
  else if strIncludes k "Porcentaje" then .str "0.00"
  else .num 0

/-- Strictly positive Number-coerced cell values of a pivot column
(the percentage-average population named by the spec). -/
def posCellVals (tableRows : List Row) (ukey : String) : List ℚ :=
  tableRows.filterMap (fun r =>
    match toNumberV (jsGet r ukey) with
    | some q => if 0 < q then some q else none
    | none => none)

/-- Modelled from the claim C3 wording, verbatim: totals cell where the
duration-average divisor counts rows with NONZERO parsed duration. -/
def totalsCellNonzero (metric : String) (tableRows : List Row) (ukey : String) : Val :=
  match tableRows with
  | [] => .undef
  | first :: _ =>
    let durCol := match jsGet first ukey with
      | .str s => containsSub s.data [':']
      | _ => false
    if durCol then
      let totalSec := tableRows.foldl (fun acc r => acc + parseDurationV (jsGet r ukey)) 0
      let nz := (tableRows.filter (fun r => decide (parseDurationV (jsGet r ukey) ≠ 0))).length
      if strStartsWith metric "Promedio" ∧ 0 < nz then .str (formatDuration (totalSec / (nz : ℚ)))
      else .str (formatDuration totalSec)
    else if strIncludes metric "Porcentaje" then
      let vals := posCellVals tableRows ukey
      if 0 < vals.length then .str (toFixed2 (vals.sum / (vals.length : ℚ)))
      else .str "0.00"
    else .num (tableRows.foldl (fun acc r => acc + ((toNumberV (jsGet r ukey)).getD 0)) 0)

/-- Modelled from the spec (amended claim C3): totals cell where the
duration-average divisor counts rows with STRICTLY POSITIVE parsed duration. -/
def totalsCellPos (metric : String) (tableRows : List Row) (ukey : String) : Val :=
  match tableRows with
  | [] => .undef
  | first :: _ =>
    let durCol := match jsGet first ukey with
      | .str s => containsSub s.data [':']
      | _ => false
    if durCol then
      let totalSec := tableRows.foldl (fun acc r => acc + parseDurationV (jsGet r ukey)) 0
      let pos := (tableRows.filter (fun r => decide (0 < parseDurationV (jsGet r ukey)))).length
      if strStartsWith metric "Promedio" ∧ 0 < pos then .str (formatDuration (totalSec / (pos : ℚ)))
      else .str (formatDuration totalSec)
    else if strIncludes metric "Porcentaje" then
      let vals := posCellVals tableRows ukey
      if 0 < vals.length then .str (toFixed2 (vals.sum / (vals.length : ℚ)))
      else .str "0.00"
    else .num (tableRows.foldl (fun acc r => acc + ((toNumberV (jsGet r ukey)).getD 0)) 0)

/-! ## Row lemmas -/

theorem lookup_cons_self (k : String) (v : Val) (t : Row) :
    List.lookup k ((k, v) :: t) = some v := by
  simp [List.lookup]

theorem lookup_cons_ne (k k0 : String) (v0 : Val) (t : Row) (h : k ≠ k0) :
    List.lookup k ((k0, v0) :: t) = List.lookup k t := by
  simp [List.lookup, beq_eq_false_iff_ne.mpr h]

theorem jsGet_setVal_self (r : Row) (k : String) (v : Val) :
    jsGet (setVal r k v) k = v := by
  induction r with
  | nil => simp [setVal, jsGet, lookup_cons_self]
  | cons p t ih =>
    obtain ⟨k0, v0⟩ := p
    by_cases h : k0 = k
    · subst h
      simp [setVal, jsGet, lookup_cons_self]
    · simp only [setVal, if_neg h, jsGet, lookup_cons_ne k k0 v0 _ (Ne.symm h)]
      exact ih

theorem jsGet_setVal_ne (r : Row) (k k' : String) (v : Val) (h : k ≠ k') :
    jsGet (setVal r k v) k' = jsGet r k' := by
  induction r with
  | nil =>
    show jsGet [(k, v)] k' = jsGet [] k'
    simp [jsGet, List.lookup, beq_eq_false_iff_ne.mpr (Ne.symm h)]
  | cons p t ih =>
    obtain ⟨k0, v0⟩ := p
    by_cases hk : k0 = k
    · subst hk
      simp [setVal, jsGet, lookup_cons_ne k' k0 v t (Ne.symm h),
        lookup_cons_ne k' k0 v0 t (Ne.symm h)]
    · simp only [setVal, if_neg hk, jsGet]
      by_cases hk2 : k' = k0
      · subst hk2
        simp [lookup_cons_self]
      · rw [lookup_cons_ne k' k0 v0 _ hk2, lookup_cons_ne k' k0 v0 t hk2]
        exact ih

/-! ## Claim C2: Tickets-General aggregation -/

/-- First row of the C2 example group. -/
def c2row1 : Row :=
  [("Mes_Anio", .str "Enero 2025"), ("Nombre_Unidad", .str "U"),
   ("Cantidad_Tickets", .num 3), ("Total_Tiempo_Productivo", .str "1:00:00"),
   ("Promedio_Tiempo_Estimado", .str "0:50:00")]

/-- Second row of the C2 example group. -/
def c2row2 : Row :=
  [("Mes_Anio", .str "Febrero 2025"), ("Nombre_Unidad", .str "U"),
   ("Cantidad_Tickets", .num 2), ("Total_Tiempo_Productivo", .str "0:30:00"),
   ("Promedio_Tiempo_Estimado", .str "0:20:00")]

/-- The accumulation row the C2 example produces. -/
def c2out : Row :=
  processTicketsGeneral
    [("Mes_Anio", .str "Acumulado 2025"), ("Nombre_Unidad", .str "U")] [c2row1, c2row2]

/-- The summed ticket count of a Tickets-General group. -/
def ticketCountSum (rows : List Row) : ℚ :=
  rows.foldl (fun acc r => acc + ((toNumberV (jsGet r "Cantidad_Tickets")).getD 0)) 0

unseal Rat.add Rat.mul Rat.sub Rat.inv in
/-- C2: on the example group with counts [3, 2], productive durations
["1:00:00", "0:30:00"] and estimated averages ["0:50:00", "0:20:00"],
`processTicketsGeneral` yields count 5, total productive time
formatDuration(5400) = "1:30:00", average productive time
formatDuration(1080) = "0:18:00", reconstructed estimated seconds
3·3000 + 2·1200 = 11400, average estimated time formatDuration(2280) =
"0:38:00" and compliance (11400/5400·100).toFixed(2) = "211.11"; and for
any group whose summed ticket count is 0, both averages are the literal
"0:00:00" and the compliance percentage is "0.00". -/
theorem ticketsGeneral_example_and_zero_case :
    (jsGet c2out "Cantidad_Tickets" = .num 5 ∧
     parseDurationV (.str "1:00:00") + parseDurationV (.str "0:30:00") = 5400 ∧
     jsGet c2out "Total_Tiempo_Productivo" = .str (formatDuration 5400) ∧
     formatDuration 5400 = "1:30:00" ∧
     jsGet c2out "Promedio_Tiempo_Productivo" = .str (formatDuration 1080) ∧
     formatDuration 1080 = "0:18:00" ∧
     parseDurationV (.str "0:50:00") * 3 + parseDurationV (.str "0:20:00") * 2 = 11400 ∧
     jsGet c2out "Promedio_Tiempo_Estimado" = .str (formatDuration 2280) ∧
     formatDuration 2280 = "0:38:00" ∧
     jsGet c2out "Porcentaje_Cumplimiento" = .str (toFixed2 (11400 / 5400 * 100)) ∧
     toFixed2 (11400 / 5400 * 100) = "211.11") ∧
    ∀ summary rows, ticketCountSum rows = 0 →
      jsGet (processTicketsGeneral summary rows) "Promedio_Tiempo_Productivo" = .str "0:00:00" ∧
      jsGet (processTicketsGeneral summary rows) "Promedio_Tiempo_Estimado" = .str "0:00:00" ∧
      jsGet (processTicketsGeneral summary rows) "Porcentaje_Cumplimiento" = .str "0.00" := by
  constructor
  · decide
  · intro summary rows h
    have hcnt : ¬ (0 : ℚ) <
        rows.foldl (fun acc r => acc + ((toNumberV (jsGet r "Cantidad_Tickets")).getD 0)) 0 := by
      rw [show rows.foldl (fun acc r => acc + ((toNumberV (jsGet r "Cantidad_Tickets")).getD 0)) 0
            = ticketCountSum rows from rfl, h]
      exact lt_irrefl 0
    simp only [processTicketsGeneral, if_neg hcnt]
    refine ⟨?_, ?_, ?_⟩
    · rw [jsGet_setVal_ne _ _ _ _ (by decide), jsGet_setVal_ne _ _ _ _ (by decide),
        jsGet_setVal_self]
    · rw [jsGet_setVal_ne _ _ _ _ (by decide), jsGet_setVal_self]
    · rw [jsGet_setVal_self]

/-- Witness for C2's zero-count hypothesis at the empty group. -/
theorem ticketsGeneral_zero_case_witness :
    jsGet (processTicketsGeneral [] []) "Porcentaje_Cumplimiento" = .str "0.00" :=
  (ticketsGeneral_example_and_zero_case.2 [] [] rfl).2.2

/-! ## Sorting and folding lemmas -/

theorem stableInsert_perm (le : α → α → Bool) (a : α) (l : List α) :
    (stableInsert le a l).Perm (a :: l) := by
  induction l with
  | nil => exact List.Perm.refl _
  | cons b t ih =>
    by_cases h : le a b
    · simp [stableInsert, h]
    · simp only [stableInsert, if_neg h]
      exact (ih.cons b).trans (List.Perm.swap a b t)

theorem jsSortBy_perm (le : α → α → Bool) (l : List α) :
    (jsSortBy le l).Perm l := by
  induction l with
  | nil => exact List.Perm.refl _
  | cons a t ih =>
    exact (stableInsert_perm le a (jsSortBy le t)).trans (ih.cons a)

theorem mem_jsSortBy (le : α → α → Bool) (l : List α) (a : α) :
    a ∈ jsSortBy le l ↔ a ∈ l :=
  (jsSortBy_perm le l).mem_iff

theorem lookup_map_pair (f : String → Val) (ks : List String) (k : String) (hk : k ∈ ks) :
    List.lookup k (ks.map (fun k0 => (k0, f k0))) = some (f k) := by
  induction ks with
  | nil => cases hk
  | cons k0 t ih =>
    by_cases h : k = k0
    · subst h
      simp [List.lookup]
    · rcases List.mem_cons.mp hk with h1 | h1
      · exact absurd h1 h
      · simpa [List.lookup, beq_eq_false_iff_ne.mpr h] using ih h1

theorem jsGet_zeroRow (keys : List String) (month : String) (u : Val) (k : String)
    (hk : k ∈ keys) :
    jsGet (zeroRow keys month u) k = zeroVal k month u := by
  unfold zeroRow jsGet
  rw [lookup_map_pair (fun k0 => zeroVal k0 month u) keys k hk]

theorem jsGet_foldl_gcStep (rows : List Row) (k : String)
    (hp : ¬(k = "Mes_Anio" ∨ k = "Nombre_Unidad")) (ks : List String) (s : Row) :
    jsGet (ks.foldl (gcStep rows) s) k =
      if k ∈ ks then gcValue rows k else jsGet s k := by
  induction ks generalizing s with
  | nil => simp
  | cons k0 t ih =>
    rw [List.foldl_cons, ih (gcStep rows s k0)]
    by_cases hpk0 : k0 = "Mes_Anio" ∨ k0 = "Nombre_Unidad"
    · have hne : k ≠ k0 := fun h => hp (h ▸ hpk0)
      simp only [gcStep, if_pos hpk0]
      by_cases ht : k ∈ t
      · simp [ht]
      · simp [ht, List.mem_cons, hne]
    · simp only [gcStep, if_neg hpk0]
      by_cases ht : k ∈ t
      · simp [ht]
      · by_cases hk0 : k = k0
        · subst hk0
          simp [ht, jsGet_setVal_self]
        · simp [ht, hk0, jsGet_setVal_ne _ _ _ _ (fun h => hk0 h.symm)]

theorem jsGet_foldl_gcStep_priv (rows : List Row) (k : String)
    (hp : k = "Mes_Anio" ∨ k = "Nombre_Unidad") (ks : List String) (s : Row) :
    jsGet (ks.foldl (gcStep rows) s) k = jsGet s k := by
  induction ks generalizing s with
  | nil => rfl
  | cons k0 t ih =>
    rw [List.foldl_cons, ih (gcStep rows s k0)]
    by_cases hpk0 : k0 = "Mes_Anio" ∨ k0 = "Nombre_Unidad"
    · simp [gcStep, if_pos hpk0]
    · have hne : k0 ≠ k := fun h => hpk0 (h ▸ hp)
      simp [gcStep, if_neg hpk0, jsGet_setVal_ne _ _ _ _ hne]

/-! ## Claim C4: Generic Counts columns -/

/-- C4: in `processGenericCounts`, a non-privileged column of the group's
first row is aggregated to the arithmetic sum of the Number-coerced values
(per-row coercion failures contributing 0) when every row's value coerces,
and to the empty string when any row's value fails to coerce. -/
theorem genericCounts_column_spec (summary : Row) (rows : List Row)
    (k : String) (hk : k ∈ (rows.headD []).keys)
    (h1 : k ≠ "Mes_Anio") (h2 : k ≠ "Nombre_Unidad") :
    ((∀ r ∈ rows, (toNumberV (jsGet r k)).isSome) →
       jsGet (processGenericCounts summary rows) k =
         .num ((rows.map (fun r => (toNumberV (jsGet r k)).getD 0)).sum)) ∧
    ((¬ ∀ r ∈ rows, (toNumberV (jsGet r k)).isSome) →
       jsGet (processGenericCounts summary rows) k = .str "") := by
  have hp : ¬(k = "Mes_Anio" ∨ k = "Nombre_Unidad") := by
    rintro (h | h)
    · exact h1 h
    · exact h2 h
  have hbase : jsGet (processGenericCounts summary rows) k =
      if k ∈ (rows.headD []).keys then gcValue rows k else jsGet summary k := by
    unfold processGenericCounts
    exact jsGet_foldl_gcStep rows k hp _ summary
  rw [hbase, if_pos hk]
  constructor
  · intro hall
    have hb : rows.all (fun r => (toNumberV (jsGet r k)).isSome) = true := by
      rw [List.all_eq_true]
      exact hall
    unfold gcValue
    rw [if_pos hb]
    congr 1
    rw [List.sum_eq_foldl, List.foldl_map]
  · intro hnall
    have hb : rows.all (fun r => (toNumberV (jsGet r k)).isSome) = false := by
      rcases Bool.eq_false_or_eq_true (rows.all fun r => (toNumberV (jsGet r k)).isSome)
        with h | h
      · exact absurd (List.all_eq_true.mp h) hnall
      · exact h
    unfold gcValue
    rw [if_neg (by simp [hb])]

/-- Witness for C4 at a one-row group with one numeric column. -/
theorem genericCounts_column_spec_witness :
    jsGet (processGenericCounts [] [[("A", Val.num 1)]]) "A" =
      .num (([[("A", Val.num 1)]].map
        (fun r => (toNumberV (jsGet r "A")).getD 0)).sum) :=
  (genericCounts_column_spec [] [[("A", Val.num 1)]] "A" (by decide) (by decide)
    (by decide)).1 (by decide)

/-! ## Claim C5: strategy dispatch rules -/

unseal Rat.add Rat.mul Rat.sub Rat.inv in
/-- C5: the dispatch chain of `aggregateData` agrees with the five-rule
ordered table (first match wins): rules 1, 2, 4 and the fallback apply
Generic Counts and rule 3 applies Tickets-General; in particular the name
DATOS_GENERALES_MANTENIMIENTO (matching rules 1 and 3) takes rule 1 and
receives Generic Counts, which differs from Tickets-General. -/
theorem dispatch_rule_table :
    (∀ name, runStrategy (chooseStrategy name) = specDispatch name) ∧
    chooseStrategy (normalizeName "Datos_Generales_Mantenimiento.json") =
      StrategyCase.mantenimiento ∧
    runStrategy (chooseStrategy (normalizeName "Datos_Generales_Mantenimiento.json")) =
      processGenericCounts ∧
    processGenericCounts ≠ processTicketsGeneral := by
  refine ⟨?_, by decide, ?_, ?_⟩
  · intro name
    by_cases h1 : (strIncludes name "MANTENIMIENTO" || strIncludes name "TECNOLOGIA" ||
        strIncludes name "LOST_AND_FOUND") = true
    · have e1 : chooseStrategy name = .mantenimiento := by simp [chooseStrategy, h1]
      have e2 : specDispatch name = processGenericCounts := by
        simp [specDispatch, specRules, List.find?, h1]
      rw [e1, e2]
      rfl
    · by_cases h2 : strIncludes name "GLITCHES" = true
      · have e1 : chooseStrategy name = .glitches := by simp [chooseStrategy, h1, h2]
        have e2 : specDispatch name = processGenericCounts := by
          simp [specDispatch, specRules, List.find?, h1, h2]
        rw [e1, e2]
        rfl
      · by_cases h3 : (name == "TICKETS_GENERAL" ||
            name == "DATOS_GENERALES_UNIDAD_DEPARTAMENTO" ||
            strStartsWith name "DATOS_GENERALES") = true
        · have e1 : chooseStrategy name = .ticketsGeneral := by
            simp [chooseStrategy, h1, h2, h3]
          have e2 : specDispatch name = processTicketsGeneral := by
            simp [specDispatch, specRules, List.find?, h1, h2, h3]
          rw [e1, e2]
          rfl
        · by_cases h4 : (name == "ETIQUETAS_UNIDAD_DEPARTAMENTO") = true
          · have e1 : chooseStrategy name = .etiquetas := by
              simp [chooseStrategy, h1, h2, h3, h4]
            have e2 : specDispatch name = processGenericCounts := by
              simp [specDispatch, specRules, List.find?, h1, h2, h3, h4]
            rw [e1, e2]
            rfl
          · have e1 : chooseStrategy name = .fallback := by
              simp [chooseStrategy, h1, h2, h3, h4]
            have e2 : specDispatch name = processGenericCounts := by
              simp [specDispatch, specRules, List.find?, h1, h2, h3, h4]
            rw [e1, e2]
            rfl
  · have h : chooseStrategy (normalizeName "Datos_Generales_Mantenimiento.json") =
        StrategyCase.mantenimiento := by decide
    rw [h]
    rfl
  · intro h
    have h2 : processGenericCounts [] [[("A", Val.num 1)]] =
        processTicketsGeneral [] [[("A", Val.num 1)]] := by rw [h]
    exact absurd h2 (by decide)

/-! ## Claim C9: falsy and N/A unit keys -/

theorem jsGet_processTicketsGeneral_unit (s : Row) (rows : List Row) :
    jsGet (processTicketsGeneral s rows) "Nombre_Unidad" = jsGet s "Nombre_Unidad" := by
  simp only [processTicketsGeneral]
  split_ifs <;>
    · repeat rw [jsGet_setVal_ne _ _ _ _ (by decide)]

theorem jsGet_runStrategy_unit (tag : StrategyCase) (s : Row) (rows : List Row) :
    jsGet (runStrategy tag s rows) "Nombre_Unidad" = jsGet s "Nombre_Unidad" := by
  cases tag <;>
    simp only [runStrategy, processGlitches, processGenericCounts] <;>
    first
      | exact jsGet_foldl_gcStep_priv rows _ (Or.inr rfl) _ s
      | exact jsGet_processTicketsGeneral_unit s rows

/-- C9: a row whose unit value is undefined (absent), null, the number 0,
the empty string, or the literal string N/A is grouped under the sentinel
key N/A, and the aggregator emits no accumulation row for that key, so such
rows (including a genuine unit actually named N/A) are silently excluded
from the accumulation output. -/
theorem na_unit_rows_dropped :
    (∀ r : Row, (jsGet r "Nombre_Unidad" = .undef ∨ jsGet r "Nombre_Unidad" = .null ∨
        jsGet r "Nombre_Unidad" = .num 0 ∨ jsGet r "Nombre_Unidad" = .str "" ∨
        jsGet r "Nombre_Unidad" = .str "N/A") → groupKey r = .str "N/A") ∧
    (∀ filename data, ∀ out ∈ aggregateData filename data,
        jsGet out "Nombre_Unidad" ≠ .str "N/A") := by
  constructor
  · intro r h
    unfold groupKey
    rcases h with h | h | h | h | h <;> rw [h] <;> simp [Val.falsy]
  · intro filename data out hout
    unfold aggregateData at hout
    by_cases hd : data.isEmpty = true
    · simp [hd] at hout
    · rw [if_neg hd] at hout
      rcases List.mem_filterMap.mp hout with ⟨g, hg, heq⟩
      by_cases hna : g.1 = Val.str "N/A"
      · rw [if_pos hna] at heq
        cases heq
      · rw [if_neg hna] at heq
        have heq2 := Option.some_injective _ heq
        rw [← heq2, jsGet_runStrategy_unit]
        simpa [jsGet, List.lookup] using hna

/-- Witness for C9 at the empty row (absent unit key). -/
theorem na_unit_rows_dropped_witness : groupKey [] = Val.str "N/A" :=
  na_unit_rows_dropped.1 [] (Or.inl rfl)

/-! ## Gap-filler slot lemmas (shared by C6 and C10) -/

theorem gapSlot_fields (data : List Row) (keys : List String) (u : Val) (month : String)
    (hmk : "Mes_Anio" ∈ keys) (huk : "Nombre_Unidad" ∈ keys) :
    ∀ r ∈ gapSlot data keys u month,
      jsGet r "Mes_Anio" = .str month ∧ jsGet r "Nombre_Unidad" = u := by
  intro r hr
  unfold gapSlot at hr
  by_cases hc : ((unitRowsOf data u).map (fun r => jsGet r "Mes_Anio")).contains
      (Val.str month) = true
  · rw [if_pos hc] at hr
    cases hfind : (unitRowsOf data u).find? (fun r => jsGet r "Mes_Anio" == Val.str month) with
    | none => rw [hfind] at hr; cases hr
    | some r0 =>
      rw [hfind] at hr
      have hr0 : r = r0 := by simpa using hr
      subst hr0
      have hpred := List.find?_some hfind
      have hmem := List.mem_of_find?_eq_some hfind
      have hmes : jsGet r "Mes_Anio" = Val.str month := by simpa using hpred
      have hunit : jsGet r "Nombre_Unidad" = u := by
        have := (List.mem_filter.mp hmem).2
        simpa using this
      exact ⟨hmes, hunit⟩
  · rw [if_neg hc] at hr
    have hz : r = zeroRow keys month u := by simpa using hr
    subst hz
    constructor
    · rw [jsGet_zeroRow keys month u _ hmk]
      simp [zeroVal]
    · rw [jsGet_zeroRow keys month u _ huk]
      simp [zeroVal]

theorem gapSlot_of_missing (data : List Row) (keys : List String) (u : Val) (month : String)
    (hmiss : ∀ r ∈ data, ¬(jsGet r "Nombre_Unidad" = u ∧ jsGet r "Mes_Anio" = .str month)) :
    gapSlot data keys u month = [zeroRow keys month u] := by
  unfold gapSlot
  rw [if_neg]
  intro hc
  have hmem : Val.str month ∈ (unitRowsOf data u).map (fun r => jsGet r "Mes_Anio") := by
    simpa using hc
  rcases List.mem_map.mp hmem with ⟨r0, hr0, hmes⟩
  have hd : r0 ∈ data := List.mem_of_mem_filter hr0
  have hu : jsGet r0 "Nombre_Unidad" = u := by
    have := (List.mem_filter.mp hr0).2
    simpa using this
  exact hmiss r0 hd ⟨hu, hmes⟩

theorem fillMissingMonths_eq (first : Row) (rest : List Row)
    (h1 : first.has "Mes_Anio" = true) (h2 : first.has "Nombre_Unidad" = true) :
    fillMissingMonths (first :: rest) =
      jsSortBy rowLe
        ((gapUnits (first :: rest)).flatMap (gapBlock (first :: rest) first.keys)) := by
  have hstep : fillMissingMonths (first :: rest) =
      if ¬(first.has "Mes_Anio" && first.has "Nombre_Unidad") = true then first :: rest
      else jsSortBy rowLe
        ((gapUnits (first :: rest)).flatMap (gapBlock (first :: rest) first.keys)) := rfl
  rw [hstep, if_neg (by simp [h1, h2])]

theorem zeroVal_nonpriv (k month : String) (u : Val)
    (hk1 : k ≠ "Mes_Anio") (hk2 : k ≠ "Nombre_Unidad") :
    zeroVal k month u = defaultValSpec k := by
  simp [zeroVal, defaultValSpec, hk1, hk2]

/-! ## Claim C6: synthesized-row defaults -/

/-- C6: for a (unit, canonical month) pair with no existing input row, the
gap filler emits a synthesized row whose period key is the canonical label,
whose unit key is the unit, and whose every other first-row column defaults
by name pattern as the spec describes (counting prefixes and bookkeeping
names to 0, names containing Tiempo to "00:00:00", names containing
Porcentaje to "0.00", everything else to 0). -/
theorem gapFiller_synthesized_defaults (first : Row) (rest : List Row)
    (h1 : first.has "Mes_Anio" = true) (h2 : first.has "Nombre_Unidad" = true)
    (month : String) (hm : month ∈ MONTHS_2025)
    (u : Val) (hu : u ∈ gapUnits (first :: rest))
    (hmiss : ∀ r ∈ first :: rest,
      ¬(jsGet r "Nombre_Unidad" = u ∧ jsGet r "Mes_Anio" = .str month)) :
    ∃ r ∈ fillMissingMonths (first :: rest),
      jsGet r "Mes_Anio" = .str month ∧ jsGet r "Nombre_Unidad" = u ∧
      ∀ k ∈ first.keys, k ≠ "Mes_Anio" → k ≠ "Nombre_Unidad" →
        jsGet r k = defaultValSpec k := by
  have hmk : "Mes_Anio" ∈ first.keys := by
    have := of_decide_eq_true h1
    exact this
  have huk : "Nombre_Unidad" ∈ first.keys := by
    have := of_decide_eq_true h2
    exact this
  refine ⟨zeroRow first.keys month u, ?_, ?_, ?_, ?_⟩
  · rw [fillMissingMonths_eq first rest h1 h2, mem_jsSortBy]
    apply List.mem_flatMap.mpr
    refine ⟨u, hu, ?_⟩
    unfold gapBlock
    apply List.mem_flatMap.mpr
    refine ⟨month, hm, ?_⟩
    rw [gapSlot_of_missing _ _ _ _ hmiss]
    exact List.mem_singleton.mpr rfl
  · rw [jsGet_zeroRow _ _ _ _ hmk]
    simp [zeroVal]
  · rw [jsGet_zeroRow _ _ _ _ huk]
    simp [zeroVal]
  · intro k hk hk1 hk2
    rw [jsGet_zeroRow _ _ _ _ hk]
    exact zeroVal_nonpriv k month u hk1 hk2

/-- Witness for C6: a one-row January series is missing (U, Febrero 2025),
and the synthesized row defaults its counting column to 0. -/
theorem gapFiller_synthesized_defaults_witness :
    ∃ r ∈ fillMissingMonths
        [[("Mes_Anio", Val.str "Enero 2025"), ("Nombre_Unidad", Val.str "U"),
          ("Cantidad_Tickets", Val.num 7)]],
      jsGet r "Mes_Anio" = .str "Febrero 2025" ∧ jsGet r "Nombre_Unidad" = .str "U" ∧
      ∀ k ∈ Row.keys [("Mes_Anio", Val.str "Enero 2025"), ("Nombre_Unidad", Val.str "U"),
          ("Cantidad_Tickets", Val.num 7)],
        k ≠ "Mes_Anio" → k ≠ "Nombre_Unidad" → jsGet r k = defaultValSpec k :=
  gapFiller_synthesized_defaults
    [("Mes_Anio", Val.str "Enero 2025"), ("Nombre_Unidad", Val.str "U"),
      ("Cantidad_Tickets", Val.num 7)] []
    (by decide) (by decide) "Febrero 2025" (by decide) (Val.str "U") (by decide) (by decide)

/-! ## Claim C10: only canonical periods survive gap filling -/

/-- C10: when gap filling is active (first row carries both privileged
columns), every output row's period value is one of the 12 canonical
labels; consequently any input row with a non-canonical period label
(a prior-year month, an accumulation label, …) is silently dropped. -/
theorem gapFiller_drops_noncanonical (first : Row) (rest : List Row)
    (h1 : first.has "Mes_Anio" = true) (h2 : first.has "Nombre_Unidad" = true) :
    (∀ r ∈ fillMissingMonths (first :: rest),
       ∃ m ∈ MONTHS_2025, jsGet r "Mes_Anio" = .str m) ∧
    (∀ r ∈ first :: rest, (∀ m ∈ MONTHS_2025, jsGet r "Mes_Anio" ≠ .str m) →
       r ∉ fillMissingMonths (first :: rest)) := by
  have hmk : "Mes_Anio" ∈ first.keys := of_decide_eq_true h1
  have huk : "Nombre_Unidad" ∈ first.keys := of_decide_eq_true h2
  have hmain : ∀ r ∈ fillMissingMonths (first :: rest),
      ∃ m ∈ MONTHS_2025, jsGet r "Mes_Anio" = .str m := by
    intro r hr
    rw [fillMissingMonths_eq first rest h1 h2, mem_jsSortBy] at hr
    rcases List.mem_flatMap.mp hr with ⟨u, hu, hblock⟩
    rcases List.mem_flatMap.mp hblock with ⟨month, hmonth, hslot⟩
    exact ⟨month, hmonth, (gapSlot_fields _ _ u month hmk huk r hslot).1⟩
  refine ⟨hmain, ?_⟩
  intro r _ hnc hin
  rcases hmain r hin with ⟨m, hm, hmes⟩
  exact hnc m hm hmes

/-- Witness for C10: a series whose second row carries a 2024 label keeps
that row out of the gap-filled output. -/
theorem gapFiller_drops_noncanonical_witness :
    [("Mes_Anio", Val.str "Enero 2024"), ("Nombre_Unidad", Val.str "U")] ∉
      fillMissingMonths
        [[("Mes_Anio", Val.str "Enero 2025"), ("Nombre_Unidad", Val.str "U")],
         [("Mes_Anio", Val.str "Enero 2024"), ("Nombre_Unidad", Val.str "U")]] :=
  (gapFiller_drops_noncanonical
      [("Mes_Anio", Val.str "Enero 2025"), ("Nombre_Unidad", Val.str "U")]
      [[("Mes_Anio", Val.str "Enero 2024"), ("Nombre_Unidad", Val.str "U")]]
      (by decide) (by decide)).2
    [("Mes_Anio", Val.str "Enero 2024"), ("Nombre_Unidad", Val.str "U")]
    (by decide) (by decide)

/-! ## Decimal rendering lemmas (shared by the sheet-name and codec claims) -/

theorem digVal_digitChar : ∀ d : Nat, d < 10 → digVal (Nat.digitChar d) = d := by
  decide

theorem isDig_digitChar : ∀ d : Nat, d < 10 → isDig (Nat.digitChar d) = true := by
  decide

theorem digitsToNat_append (l1 l2 : List Char) :
    digitsToNat (l1 ++ l2) =
      digitsToNat l2 + digitsToNat l1 * 10 ^ l2.length := by
  induction l2 generalizing l1 with
  | nil => simp [digitsToNat]
  | cons c t ih =>
    have h1 : digitsToNat (l1 ++ c :: t) = digitsToNat ((l1 ++ [c]) ++ t) := by
      simp
    have h2 : digitsToNat (c :: t) = digitsToNat ([c] ++ t) := by simp
    rw [h1, h2, ih (l1 ++ [c]), ih [c]]
    have hstep : ∀ l c0, digitsToNat (l ++ [c0]) = 10 * digitsToNat l + digVal c0 := by
      intro l c0
      unfold digitsToNat
      rw [List.foldl_append]
      rfl
    rw [hstep l1 c]
    have hc : digitsToNat [c] = digVal c := by simp [digitsToNat]
    rw [hc]
    simp only [List.length_cons, pow_succ]
    ring

theorem digitsToNat_natDigitsAux :
    ∀ fuel n : Nat, n < 10 ^ fuel → digitsToNat (natDigitsAux fuel n) = n := by
  intro fuel
  induction fuel with
  | zero =>
    intro n hn
    interval_cases n
    rfl
  | succ f ih =>
    intro n hn
    by_cases h : n < 10
    · simp only [natDigitsAux, if_pos h]
      have : digitsToNat [Nat.digitChar n] = digVal (Nat.digitChar n) := by
        simp [digitsToNat, digVal]
      rw [this, digVal_digitChar n h]
    · simp only [natDigitsAux, if_neg h]
      have hdiv : n / 10 < 10 ^ f := by
        rw [Nat.div_lt_iff_lt_mul (by norm_num)]
        calc n < 10 ^ (f + 1) := hn
          _ = 10 ^ f * 10 := by rw [pow_succ]
      rw [digitsToNat_append, ih (n / 10) hdiv]
      have : digitsToNat [Nat.digitChar (n % 10)] = n % 10 := by
        have := digVal_digitChar (n % 10) (Nat.mod_lt n (by norm_num))
        simpa [digitsToNat, digVal] using this
      rw [this]
      simp
      omega

theorem digitsToNat_natDigits (n : Nat) : digitsToNat (natDigits n) = n := by
  unfold natDigits
  apply digitsToNat_natDigitsAux
  calc n < 10 ^ n := Nat.lt_pow_self (by norm_num) n
    _ ≤ 10 ^ (n + 1) := Nat.pow_le_pow_right (by norm_num) (Nat.le_succ n)

theorem natStr_injective (a b : Nat) (h : natStr a = natStr b) : a = b := by
  have hd : natDigits a = natDigits b := congrArg String.data h
  calc a = digitsToNat (natDigits a) := (digitsToNat_natDigits a).symm
    _ = digitsToNat (natDigits b) := by rw [hd]
    _ = b := digitsToNat_natDigits b

theorem natDigitsAux_digits : ∀ fuel n : Nat, ∀ c ∈ natDigitsAux fuel n, isDig c = true := by
  intro fuel
  induction fuel with
  | zero => intro n c hc; cases hc
  | succ f ih =>
    intro n c hc
    by_cases h : n < 10
    · simp only [natDigitsAux, if_pos h] at hc
      rcases List.mem_singleton.mp hc with rfl
      exact isDig_digitChar n h
    · simp only [natDigitsAux, if_neg h] at hc
      rcases List.mem_append.mp hc with hc | hc
      · exact ih (n / 10) c hc
      · rcases List.mem_singleton.mp hc with rfl
        exact isDig_digitChar (n % 10) (Nat.mod_lt n (by norm_num))

theorem natDigits_digits (n : Nat) : ∀ c ∈ natDigits n, isDig c = true :=
  natDigitsAux_digits (n + 1) n

theorem natDigitsAux_ne_nil (f n : Nat) : natDigitsAux (f + 1) n ≠ [] := by
  by_cases h : n < 10
  · simp [natDigitsAux, if_pos h]
  · simp [natDigitsAux, if_neg h]

theorem natDigits_ne_nil (n : Nat) : natDigits n ≠ [] := natDigitsAux_ne_nil n n

/-! ## Claim C8: sheet-name collision resolution -/

theorem strEqOfData {s t : String} (h : s.data = t.data) : s = t := by
  cases s
  cases t
  exact congrArg String.mk h

theorem strData_append (a b : String) : (a ++ b).data = a.data ++ b.data := by
  cases a
  cases b
  rfl

theorem suffixedName_inj (base : String) (a b : Nat)
    (h : suffixedName base a = suffixedName base b) : a = b := by
  apply natStr_injective
  unfold suffixedName at h
  have hd := congrArg String.data h
  rw [strData_append, strData_append, strData_append, strData_append] at hd
  exact strEqOfData (List.append_cancel_left hd)

theorem resolveGo_exit (names : List String) (base cur : String) (fuel counter : Nat)
    (h : cur ∉ names) : resolveGo names base fuel counter cur = cur := by
  cases fuel with
  | zero => rfl
  | succ f =>
    unfold resolveGo
    rw [if_neg (by simpa using h)]

theorem resolveGo_run (names : List String) (base : String) :
    ∀ (fuel k counter : Nat) (cur : String),
      1 ≤ counter → counter ≤ k →
      cur ∈ names →
      (∀ i, counter ≤ i → i < k → suffixedName base i ∈ names) →
      suffixedName base k ∉ names →
      k - counter < fuel →
      resolveGo names base fuel counter cur = suffixedName base k := by
  intro fuel
  induction fuel with
  | zero =>
    intro k counter cur _ _ _ _ _ hf
    omega
  | succ f ih =>
    intro k counter cur h1 hck hcur hprev hout hf
    unfold resolveGo
    rw [if_pos (by simpa using hcur)]
    by_cases hek : counter = k
    · subst hek
      exact resolveGo_exit names base _ f (counter + 1) hout
    · have hlt : counter < k := lt_of_le_of_ne hck hek
      exact ih k (counter + 1) (suffixedName base counter) (by omega) (by omega)
        (hprev counter le_rfl hlt) (fun i hi1 hi2 => hprev i (by omega) hi2) hout (by omega)

theorem natStr_len_le_two : ∀ c : Nat, c < 100 → (natStr c).length ≤ 2 := by
  decide

theorem suffixedName_data (base : String) (c : Nat) :
    (suffixedName base c).data =
      (base.data.take (MAX_SHEET_NAME_LENGTH - 3) ++ "_".data) ++ (natStr c).data := by
  unfold suffixedName
  rw [strData_append, strData_append]

theorem suffixedName_length (base : String) (c : Nat) :
    (suffixedName base c).length = (base.data.take 28).length + 1 + (natStr c).length := by
  show (suffixedName base c).data.length = _
  rw [suffixedName_data, List.length_append, List.length_append]
  have h1 : ("_".data).length = 1 := rfl
  have h2 : MAX_SHEET_NAME_LENGTH - 3 = 28 := rfl
  rw [h1, h2]
  rfl

/-- C8 (amended): when the cleaned base name is already present, the second
occurrence gets the base truncated to 28 characters suffixed with _1, the
third gets _2, and in general the k-th collision in a row yields suffix _k;
every produced name whose numeric suffix is at most 99 has length at most
31 (the code exceeds the 31-character limit once the counter reaches 100,
as the counterexample shows). -/
theorem sheetName_collision_resolution (names : List String) (base : String)
    (hbase : base ∈ names) :
    (∀ c : Nat, suffixedName base c = (⟨base.data.take 28⟩ : String) ++ "_" ++ natStr c) ∧
    (suffixedName base 1 ∉ names → resolveSheetName names base = suffixedName base 1) ∧
    (suffixedName base 1 ∈ names → suffixedName base 2 ∉ names →
      resolveSheetName names base = suffixedName base 2) ∧
    (∀ k, 1 ≤ k → (∀ j, 1 ≤ j → j < k → suffixedName base j ∈ names) →
      suffixedName base k ∉ names →
      resolveSheetName names base = suffixedName base k) ∧
    (∀ c, 1 ≤ c → c ≤ 99 → (suffixedName base c).length ≤ 31) := by
  have hgen : ∀ k, 1 ≤ k → (∀ j, 1 ≤ j → j < k → suffixedName base j ∈ names) →
      suffixedName base k ∉ names → resolveSheetName names base = suffixedName base k := by
    intro k hk hprev hout
    have hlen : k - 1 ≤ names.length := by
      have hsub : ((List.range (k - 1)).map (fun i => suffixedName base (i + 1))) ⊆ names := by
        intro x hx
        rcases List.mem_map.mp hx with ⟨i, hi, rfl⟩
        exact hprev (i + 1) (by omega) (by have := List.mem_range.mp hi; omega)
      have hnd : ((List.range (k - 1)).map (fun i => suffixedName base (i + 1))).Nodup := by
        refine List.Nodup.map ?_ (List.nodup_range _)
        intro a b hab
        have := suffixedName_inj base (a + 1) (b + 1) hab
        omega
      have hle := (hnd.subperm hsub).length_le
      simpa using hle
    unfold resolveSheetName
    exact resolveGo_run names base (names.length + 1) k 1 base le_rfl hk hbase
      (fun i hi1 hi2 => hprev i hi1 hi2) hout (by omega)
  refine ⟨fun c => rfl, ?_, ?_, hgen, ?_⟩
  · intro h1
    exact hgen 1 le_rfl (fun j hj1 hj2 => absurd (lt_of_le_of_lt hj1 hj2) (lt_irrefl 1)) h1
  · intro h1 h2
    refine hgen 2 (by norm_num) ?_ h2
    intro j hj1 hj2
    have hj : j = 1 := by omega
    rw [hj]
    exact h1
  · intro c hc1 hc2
    rw [suffixedName_length]
    have h28 : (base.data.take 28).length ≤ 28 := by
      simp
    have h2d : (natStr c).length ≤ 2 := natStr_len_le_two c (by omega)
    omega

/-- Witness for C8 (amended) at a single-collision workbook. -/
theorem sheetName_collision_resolution_witness :
    resolveSheetName ["abc"] "abc" = suffixedName "abc" 1 :=
  (sheetName_collision_resolution ["abc"] "abc" (by decide)).2.1 (by decide)

/-- The 31-character base name used by the C8 counterexample. -/
def c8base : String := ⟨List.replicate 31 'a'⟩

/-- A workbook holding the base name and its first 99 suffixed names. -/
def c8names : List String := c8base :: (List.range 99).map (fun i => suffixedName c8base (i + 1))

/-- C8 counterexample: with 100 colliding names (each itself within the
31-character limit, and the base exactly what `cleanSheetName` keeps), the
loop produces the name truncated-base_100 of length 32, violating the
claimed 31-character bound. -/
theorem sheetName_length_counterexample :
    cleanSheetName c8base = c8base ∧
    c8base ∈ c8names ∧
    (∀ n ∈ c8names, n.length ≤ 31) ∧
    resolveSheetName c8names c8base = suffixedName c8base 100 ∧
    (resolveSheetName c8names c8base).length = 32 := by
  have hbase : c8base ∈ c8names := List.mem_cons_self _ _
  have htake : (c8base.data.take 28).length = 28 := by decide
  have hprev : ∀ j, 1 ≤ j → j < 100 → suffixedName c8base j ∈ c8names := by
    intro j hj1 hj2
    apply List.mem_cons_of_mem
    apply List.mem_map.mpr
    exact ⟨j - 1, List.mem_range.mpr (by omega), by rw [Nat.sub_add_cancel hj1]⟩
  have hout : suffixedName c8base 100 ∉ c8names := by
    intro hmem
    rcases List.mem_cons.mp hmem with hmem | hmem
    · have hl := congrArg String.length hmem
      rw [suffixedName_length, htake] at hl
      have : (natStr 100).length = 3 := by decide
      rw [this] at hl
      have : c8base.length = 31 := by decide
      omega
    · rcases List.mem_map.mp hmem with ⟨i, hi, heq⟩
      have := suffixedName_inj c8base 100 (i + 1) heq.symm
      have := List.mem_range.mp hi
      omega
  have hres : resolveSheetName c8names c8base = suffixedName c8base 100 := by
    unfold resolveSheetName
    apply resolveGo_run c8names c8base (c8names.length + 1) 100 1 c8base le_rfl
      (by norm_num) hbase (fun i hi1 hi2 => hprev i hi1 hi2) hout
    have : c8names.length = 100 := by
      show (c8base :: _).length = 100
      rw [List.length_cons, List.length_map, List.length_range]
    omega
  refine ⟨by decide, hbase, ?_, hres, ?_⟩
  · intro n hn
    rcases List.mem_cons.mp hn with rfl | hn
    · decide
    · rcases List.mem_map.mp hn with ⟨i, hi, rfl⟩
      rw [suffixedName_length, htake]
      have := natStr_len_le_two (i + 1) (by have := List.mem_range.mp hi; omega)
      omega
  · rw [hres, suffixedName_length, htake]
    have : (natStr 100).length = 3 := by decide
    omega

/-! ## Claim C7: duration codec round trip -/

theorem splitOnChar_ne_nil (sep : Char) (l : List Char) : splitOnChar sep l ≠ [] := by
  cases l with
  | nil => simp [splitOnChar]
  | cons c cs =>
    unfold splitOnChar
    by_cases h : c = sep
    · simp [h]
    · rw [if_neg h]
      cases splitOnChar sep cs <;> simp

theorem splitOnChar_no_sep (sep : Char) (l : List Char) (h : ∀ c ∈ l, c ≠ sep) :
    splitOnChar sep l = [l] := by
  induction l with
  | nil => rfl
  | cons c cs ih =>
    unfold splitOnChar
    rw [if_neg (h c (List.mem_cons_self c cs))]
    rw [ih (fun c0 hc0 => h c0 (List.mem_cons_of_mem c hc0))]

theorem splitOnChar_append (sep : Char) (a r : List Char) (h : ∀ c ∈ a, c ≠ sep) :
    splitOnChar sep (a ++ sep :: r) = a :: splitOnChar sep r := by
  induction a with
  | nil => simp [splitOnChar]
  | cons c cs ih =>
    have hstep : splitOnChar sep ((c :: cs) ++ sep :: r) =
        match splitOnChar sep (cs ++ sep :: r) with
        | [] => [[c]]
        | h0 :: t => (c :: h0) :: t := by
      show splitOnChar sep (c :: (cs ++ sep :: r)) = _
      rw [splitOnChar]
      rw [if_neg (h c (List.mem_cons_self c cs))]
    rw [hstep, ih (fun c0 hc0 => h c0 (List.mem_cons_of_mem c hc0))]

theorem isDig_not_colon {c : Char} (h : isDig c = true) : c ≠ ':' := by
  intro hc
  rw [hc] at h
  exact absurd h (by decide)

theorem isDig_not_ws {c : Char} (h : isDig c = true) : isWs c = false := by
  rcases Bool.eq_false_or_eq_true (isWs c) with hw | hw
  · exfalso
    revert h
    have hd : ((c = ' ' ∨ c = '\t') ∨ c = '\n') ∨ c = '\r' := by
      simpa [isWs] using hw
    rcases hd with ((rfl | rfl) | rfl) | rfl <;> decide
  · exact hw

theorem isDig_not_minus {c : Char} (h : isDig c = true) : c ≠ '-' := by
  intro hc
  rw [hc] at h
  exact absurd h (by decide)

theorem isDig_not_plus {c : Char} (h : isDig c = true) : c ≠ '+' := by
  intro hc
  rw [hc] at h
  exact absurd h (by decide)

theorem takeWhile_all_digits (l : List Char) (h : ∀ c ∈ l, isDig c = true) :
    l.takeWhile isDig = l := by
  induction l with
  | nil => rfl
  | cons c cs ih =>
    rw [List.takeWhile_cons_of_pos (h c (List.mem_cons_self c cs))]
    rw [ih (fun c0 hc0 => h c0 (List.mem_cons_of_mem c hc0))]

theorem dropWhile_all_digits (l : List Char) (h : ∀ c ∈ l, isDig c = true) :
    l.dropWhile isDig = [] := by
  induction l with
  | nil => rfl
  | cons c cs ih =>
    rw [List.dropWhile_cons_of_pos (h c (List.mem_cons_self c cs))]
    exact ih (fun c0 hc0 => h c0 (List.mem_cons_of_mem c hc0))

theorem digitsPrefixVal_all_digits (l : List Char) (hne : l ≠ [])
    (h : ∀ c ∈ l, isDig c = true) :
    digitsPrefixVal l = some (digitsToNat l) := by
  unfold digitsPrefixVal
  rw [takeWhile_all_digits l h]
  cases l with
  | nil => exact absurd rfl hne
  | cons c cs => rfl

theorem jsParseInt_all_digits (l : List Char) (hne : l ≠ [])
    (h : ∀ c ∈ l, isDig c = true) :
    jsParseInt l = some ((digitsToNat l : Nat) : Int) := by
  cases l with
  | nil => exact absurd rfl hne
  | cons c cs =>
    have hc := h c (List.mem_cons_self c cs)
    have hdrop : (c :: cs).dropWhile isWs = c :: cs :=
      List.dropWhile_cons_of_neg (by simp [isDig_not_ws hc])
    simp only [jsParseInt, hdrop]
    rw [if_neg (isDig_not_minus hc), if_neg (isDig_not_plus hc)]
    rw [digitsPrefixVal_all_digits (c :: cs) (by simp) h]
    rfl

theorem jsParseFloat_all_digits (l : List Char) (hne : l ≠ [])
    (h : ∀ c ∈ l, isDig c = true) :
    jsParseFloat l = some ((digitsToNat l : Nat) : ℚ) := by
  cases l with
  | nil => exact absurd rfl hne
  | cons c cs =>
    have hc := h c (List.mem_cons_self c cs)
    have hdrop : (c :: cs).dropWhile isWs = c :: cs :=
      List.dropWhile_cons_of_neg (by simp [isDig_not_ws hc])
    simp only [jsParseFloat, signedDecPrefix, hdrop]
    rw [if_neg (isDig_not_minus hc), if_neg (isDig_not_plus hc)]
    simp only [decPrefixCore]
    rw [takeWhile_all_digits (c :: cs) h, dropWhile_all_digits (c :: cs) h]
    simp

theorem digitsToNat_cons_zero (l : List Char) : digitsToNat ('0' :: l) = digitsToNat l := rfl

theorem digitsToNat_pad2 (l : List Char) : digitsToNat (pad2 l) = digitsToNat l := by
  unfold pad2
  by_cases h0 : l.length = 0
  · rw [if_pos h0]
    rw [List.length_eq_zero.mp h0]
    rfl
  · rw [if_neg h0]
    by_cases h1 : l.length = 1
    · rw [if_pos h1, digitsToNat_cons_zero]
    · rw [if_neg h1]

theorem pad2_ne_nil (l : List Char) : pad2 l ≠ [] := by
  unfold pad2
  by_cases h0 : l.length = 0
  · simp [h0]
  · rw [if_neg h0]
    by_cases h1 : l.length = 1
    · simp [h1]
    · rw [if_neg h1]
      intro h
      rw [h] at h0
      exact h0 rfl

theorem pad2_digits (l : List Char) (h : ∀ c ∈ l, isDig c = true) :
    ∀ c ∈ pad2 l, isDig c = true := by
  unfold pad2
  by_cases h0 : l.length = 0
  · rw [if_pos h0]
    intro c hc
    rcases List.mem_cons.mp hc with rfl | hc
    · decide
    · rcases List.mem_singleton.mp hc with rfl
      decide
  · rw [if_neg h0]
    by_cases h1 : l.length = 1
    · rw [if_pos h1]
      intro c hc
      rcases List.mem_cons.mp hc with rfl | hc
      · decide
      · exact h c hc
    · rw [if_neg h1]
      exact h

theorem jsTrunc_of_nonneg (q : ℚ) (h : 0 ≤ q) : jsTrunc q = ⌊q⌋ := if_pos h

theorem jsRem_nonneg_eq (a b : ℚ) (ha : 0 ≤ a) (hb : 0 < b) :
    jsRem a b = a - b * (⌊a / b⌋ : ℚ) := by
  unfold jsRem
  rw [jsTrunc_of_nonneg _ (div_nonneg ha hb.le)]

theorem jsRem_bounds (a b : ℚ) (ha : 0 ≤ a) (hb : 0 < b) :
    0 ≤ jsRem a b ∧ jsRem a b < b := by
  rw [jsRem_nonneg_eq a b ha hb]
  have hba : b * (a / b) = a := by field_simp
  constructor
  · have h1 : (⌊a / b⌋ : ℚ) ≤ a / b := Int.floor_le _
    have h2 : b * (⌊a / b⌋ : ℚ) ≤ b * (a / b) := mul_le_mul_of_nonneg_left h1 hb.le
    rw [hba] at h2
    linarith
  · have h3 : a / b < (⌊a / b⌋ : ℚ) + 1 := Int.lt_floor_add_one _
    have h4 : b * (a / b) < b * ((⌊a / b⌋ : ℚ) + 1) := mul_lt_mul_of_pos_left h3 hb
    rw [hba] at h4
    nlinarith

theorem parse_format (q : ℚ) (h0 : 0 ≤ q) :
    parseDurationChars (formatDurationChars q) =
      3600 * (⌊q / 3600⌋ : ℚ) + 60 * (⌊jsRem q 3600 / 60⌋ : ℚ) +
        (⌊jsRem (jsRem q 3600) 60⌋ : ℚ) := by
  have hrb := jsRem_bounds q 3600 h0 (by norm_num)
  have hcb := jsRem_bounds (jsRem q 3600) 60 hrb.1 (by norm_num)
  have hhn : (0 : Int) ≤ ⌊q / 3600⌋ := Int.floor_nonneg.mpr (div_nonneg h0 (by norm_num))
  have hmn : (0 : Int) ≤ ⌊jsRem q 3600 / 60⌋ :=
    Int.floor_nonneg.mpr (div_nonneg hrb.1 (by norm_num))
  have hsn : (0 : Int) ≤ ⌊jsRem (jsRem q 3600) 60⌋ := Int.floor_nonneg.mpr hcb.1
  have hA : intChars ⌊q / 3600⌋ = natDigits (⌊q / 3600⌋).toNat := by
    unfold intChars
    rw [if_neg (by omega)]
  have hB : intChars ⌊jsRem q 3600 / 60⌋ = natDigits (⌊jsRem q 3600 / 60⌋).toNat := by
    unfold intChars
    rw [if_neg (by omega)]
  have hC : intChars ⌊jsRem (jsRem q 3600) 60⌋ =
      natDigits (⌊jsRem (jsRem q 3600) 60⌋).toNat := by
    unfold intChars
    rw [if_neg (by omega)]
  have hfmt : formatDurationChars q =
      natDigits (⌊q / 3600⌋).toNat ++
        (':' :: (pad2 (natDigits (⌊jsRem q 3600 / 60⌋).toNat) ++
          (':' :: pad2 (natDigits (⌊jsRem (jsRem q 3600) 60⌋).toNat)))) := by
    simp only [formatDurationChars]
    rw [hA, hB, hC]
  have hdA : ∀ c0 ∈ natDigits (⌊q / 3600⌋).toNat, isDig c0 = true := natDigits_digits _
  have hdB : ∀ c0 ∈ pad2 (natDigits (⌊jsRem q 3600 / 60⌋).toNat), isDig c0 = true :=
    pad2_digits _ (natDigits_digits _)
  have hdC : ∀ c0 ∈ pad2 (natDigits (⌊jsRem (jsRem q 3600) 60⌋).toNat), isDig c0 = true :=
    pad2_digits _ (natDigits_digits _)
  have hsplit : splitOnChar ':' (formatDurationChars q) =
      [natDigits (⌊q / 3600⌋).toNat,
       pad2 (natDigits (⌊jsRem q 3600 / 60⌋).toNat),
       pad2 (natDigits (⌊jsRem (jsRem q 3600) 60⌋).toNat)] := by
    rw [hfmt]
    rw [splitOnChar_append ':' _ _ (fun c0 hc0 => isDig_not_colon (hdA c0 hc0))]
    rw [splitOnChar_append ':' _ _ (fun c0 hc0 => isDig_not_colon (hdB c0 hc0))]
    rw [splitOnChar_no_sep ':' _ (fun c0 hc0 => isDig_not_colon (hdC c0 hc0))]
  simp only [parseDurationChars, hsplit]
  rw [if_neg (by norm_num)]
  simp only [List.getD, List.get?, Option.some_bind, Option.getD_some]
  rw [jsParseInt_all_digits _ (natDigits_ne_nil _) hdA,
    jsParseInt_all_digits _ (pad2_ne_nil _) hdB,
    jsParseFloat_all_digits _ (pad2_ne_nil _) hdC]
  simp only [Option.getD_some]
  rw [digitsToNat_natDigits, digitsToNat_pad2, digitsToNat_natDigits,
    digitsToNat_pad2, digitsToNat_natDigits]
  have hlast : ((⌊jsRem (jsRem q 3600) 60⌋.toNat : ℕ) : ℚ) =
      (⌊jsRem (jsRem q 3600) 60⌋ : ℚ) := by
    exact_mod_cast Int.toNat_of_nonneg hsn
  rw [hlast]
  push_cast [Int.toNat_of_nonneg hhn, Int.toNat_of_nonneg hmn]
  ring

theorem floor_natCast_div (a b : Nat) (hb : 0 < b) :
    ⌊(a : ℚ) / (b : ℚ)⌋ = ((a / b : ℕ) : ℤ) := by
  rw [Int.floor_eq_iff]
  have hbq : (0 : ℚ) < (b : ℚ) := by exact_mod_cast hb
  constructor
  · rw [le_div_iff₀ hbq]
    exact_mod_cast Nat.div_mul_le_self a b
  · rw [div_lt_iff₀ hbq]
    have h1 := Nat.div_add_mod a b
    have h2 := Nat.mod_lt a hb
    have h3 : a < (a / b + 1) * b := by
      have h4 : (a / b + 1) * b = b * (a / b) + b := by ring
      omega
    exact_mod_cast h3

theorem jsRem_natCast (a b : Nat) (hb : 0 < b) :
    jsRem (a : ℚ) (b : ℚ) = ((a % b : ℕ) : ℚ) := by
  rw [jsRem_nonneg_eq _ _ (by positivity) (by exact_mod_cast hb)]
  rw [floor_natCast_div a b hb, Int.cast_natCast]
  have h2 : (b : ℚ) * ((a / b : ℕ) : ℚ) + ((a % b : ℕ) : ℚ) = (a : ℚ) := by
    have h3 : b * (a / b) + a % b = a := Nat.div_add_mod a b
    calc (b : ℚ) * ((a / b : ℕ) : ℚ) + ((a % b : ℕ) : ℚ)
        = ((b * (a / b) + a % b : ℕ) : ℚ) := by push_cast; ring
      _ = (a : ℚ) := by rw [h3]
  linarith

/-- C7: `parseDuration(formatDuration(s))` recovers `s` for every
non-negative integer seconds value, and for every non-negative rational
number of seconds the round trip recovers exactly the floored
hours/minutes/seconds decomposition that `formatDuration` rendered (so the
round trip is lossy only for fractional seconds). -/
theorem duration_roundtrip :
    (∀ s : Nat, parseDurationV (.str (formatDuration (s : ℚ))) = (s : ℚ)) ∧
    (∀ q : ℚ, 0 ≤ q →
      parseDurationV (.str (formatDuration q)) =
        3600 * (⌊q / 3600⌋ : ℚ) + 60 * (⌊jsRem q 3600 / 60⌋ : ℚ) +
          (⌊jsRem (jsRem q 3600) 60⌋ : ℚ)) := by
  have hne : ∀ q : ℚ, ¬(formatDuration q = "") := by
    intro q h
    have hd : formatDurationChars q = [] := congrArg String.data h
    simp only [formatDurationChars] at hd
    rcases List.append_eq_nil.mp hd with ⟨_, h2⟩
    exact List.cons_ne_nil _ _ h2
  have hgen : ∀ q : ℚ, 0 ≤ q →
      parseDurationV (.str (formatDuration q)) =
        3600 * (⌊q / 3600⌋ : ℚ) + 60 * (⌊jsRem q 3600 / 60⌋ : ℚ) +
          (⌊jsRem (jsRem q 3600) 60⌋ : ℚ) := by
    intro q h0
    simp only [parseDurationV]
    rw [if_neg (hne q)]
    exact parse_format q h0
  refine ⟨?_, hgen⟩
  intro s
  rw [hgen (s : ℚ) (by positivity)]
  have h36 : ((3600 : ℕ) : ℚ) = (3600 : ℚ) := by norm_num
  have h60 : ((60 : ℕ) : ℚ) = (60 : ℚ) := by norm_num
  have e1 : ⌊(s : ℚ) / 3600⌋ = ((s / 3600 : ℕ) : ℤ) := by
    rw [← h36]
    exact floor_natCast_div s 3600 (by norm_num)
  have e2 : jsRem (s : ℚ) 3600 = ((s % 3600 : ℕ) : ℚ) := by
    rw [← h36]
    exact jsRem_natCast s 3600 (by norm_num)
  have e3 : ⌊((s % 3600 : ℕ) : ℚ) / 60⌋ = ((s % 3600 / 60 : ℕ) : ℤ) := by
    rw [← h60]
    exact floor_natCast_div (s % 3600) 60 (by norm_num)
  have e4 : jsRem ((s % 3600 : ℕ) : ℚ) 60 = ((s % 3600 % 60 : ℕ) : ℚ) := by
    rw [← h60]
    exact jsRem_natCast (s % 3600) 60 (by norm_num)
  rw [e1, e2, e3, e4, Int.floor_natCast]
  have harith : 3600 * (s / 3600) + 60 * (s % 3600 / 60) + s % 3600 % 60 = s := by
    omega
  push_cast
  exact_mod_cast congrArg (fun n : ℕ => (n : ℚ)) harith

/-- Witness for C7's rational conjunct at two and a half seconds. -/
theorem duration_roundtrip_witness :
    parseDurationV (.str (formatDuration (5 / 2 : ℚ))) =
      3600 * (⌊(5 / 2 : ℚ) / 3600⌋ : ℚ) + 60 * (⌊jsRem (5 / 2 : ℚ) 3600 / 60⌋ : ℚ) +
        (⌊jsRem (jsRem (5 / 2 : ℚ) 3600) 60⌋ : ℚ) :=
  duration_roundtrip.2 (5 / 2 : ℚ) (by norm_num)

/-! ## Claim C3: pivot totals row -/

theorem mem_insertionDedup_aux (l : List Val) :
    ∀ (acc : List Val) (v : Val),
      (v ∈ l.foldl (fun acc v => if v ∈ acc then acc else acc ++ [v]) acc) ↔
        (v ∈ acc ∨ v ∈ l) := by
  induction l with
  | nil => intro acc v; simp
  | cons a t ih =>
    intro acc v
    rw [List.foldl_cons, ih]
    by_cases ha : a ∈ acc
    · rw [if_pos ha]
      constructor
      · rintro (h | h)
        · exact Or.inl h
        · exact Or.inr (List.mem_cons_of_mem a h)
      · rintro (h | h)
        · exact Or.inl h
        · rcases List.mem_cons.mp h with rfl | h
          · exact Or.inl ha
          · exact Or.inr h
    · rw [if_neg ha]
      constructor
      · rintro (h | h)
        · rcases List.mem_append.mp h with h | h
          · exact Or.inl h
          · rcases List.mem_singleton.mp h with rfl
            exact Or.inr (List.mem_cons_self _ _)
        · exact Or.inr (List.mem_cons_of_mem a h)
      · rintro (h | h)
        · exact Or.inl (List.mem_append.mpr (Or.inl h))
        · rcases List.mem_cons.mp h with rfl | h
          · exact Or.inl (List.mem_append.mpr (Or.inr (List.mem_singleton.mpr rfl)))
          · exact Or.inr h

theorem mem_insertionDedup (l : List Val) (v : Val) :
    v ∈ insertionDedup l ↔ v ∈ l := by
  unfold insertionDedup
  rw [mem_insertionDedup_aux l [] v]
  simp

theorem insertionDedup_ne_nil (l : List Val) (h : l ≠ []) : insertionDedup l ≠ [] := by
  cases l with
  | nil => exact absurd rfl h
  | cons a t =>
    intro hd
    have := (mem_insertionDedup (a :: t) a).mpr (List.mem_cons_self a t)
    rw [hd] at this
    cases this

theorem jsSortBy_ne_nil (le : α → α → Bool) (l : List α) (h : l ≠ []) :
    jsSortBy le l ≠ [] := by
  intro hd
  have := (jsSortBy_perm le l).length_eq
  rw [hd] at this
  cases l with
  | nil => exact absurd rfl h
  | cons a t => simp at this

theorem pivotMonths_ne_nil (data : List Row) (h : data ≠ []) : pivotMonths data ≠ [] := by
  unfold pivotMonths
  apply jsSortBy_ne_nil
  apply insertionDedup_ne_nil
  cases data with
  | nil => exact absurd rfl h
  | cons r t => simp

theorem pivotTableRows_ne_nil (data : List Row) (h : data ≠ []) (m : String) :
    pivotTableRows data m ≠ [] := by
  unfold pivotTableRows
  intro hd
  exact pivotMonths_ne_nil data h (List.map_eq_nil_iff.mp hd)

theorem parseFloat_eq_toNumber_of_pos (v : Val) (q : ℚ)
    (hq : toNumberV v = some q) (hpos : 0 < q) : parseFloatV v = some q := by
  cases v with
  | undef => cases hq
  | null =>
    have h0 : (0 : ℚ) = q := Option.some_injective _ hq
    rw [← h0] at hpos
    exact absurd hpos (lt_irrefl 0)
  | num p =>
    have : p = q := Option.some_injective _ hq
    rw [← this]
    rfl
  | str s =>
    have hq2 : jsStrNumber s = some q := hq
    simp only [jsStrNumber] at hq2
    cases hdrop : s.data.dropWhile isWs with
    | nil =>
      rw [hdrop, if_pos rfl] at hq2
      have h0 : (0 : ℚ) = q := Option.some_injective _ hq2
      rw [← h0] at hpos
      exact absurd hpos (lt_irrefl 0)
    | cons c t =>
      rw [hdrop, if_neg (by simp)] at hq2
      cases hsd : signedDecPrefix (c :: t) with
      | none =>
        rw [hsd] at hq2
        cases hq2
      | some p =>
        obtain ⟨pq, prest⟩ := p
        rw [hsd] at hq2
        have hq3 : (if prest.all isWs = true then some pq else none) = some q := hq2
        by_cases hrest : prest.all isWs = true
        · rw [if_pos hrest] at hq3
          have hpq : pq = q := Option.some_injective _ hq3
          show jsParseFloat s.data = some q
          unfold jsParseFloat
          rw [hdrop, hsd]
          rw [hpq]
          rfl
        · rw [if_neg hrest] at hq3
          cases hq3

theorem posCellVals_spec (tableRows : List Row) (ukey : String) :
    posCellVals tableRows ukey =
      (tableRows.filter (fun r => match toNumberV (jsGet r ukey) with
        | some q => decide (0 < q)
        | none => false)).map (fun r => (toNumberV (jsGet r ukey)).getD 0) := by
  induction tableRows with
  | nil => rfl
  | cons r t ih =>
    unfold posCellVals at ih ⊢
    cases hn : toNumberV (jsGet r ukey) with
    | none => simp [List.filterMap_cons, List.filter_cons, hn, ih]
    | some q =>
      by_cases hq : 0 < q
      · simp [List.filterMap_cons, List.filter_cons, hn, hq, ih]
      · simp [List.filterMap_cons, List.filter_cons, hn, hq, ih]

theorem foldl_jsAddOpt (g : Row → Option ℚ) (l : List Row)
    (h : ∀ r ∈ l, (g r).isSome) :
    ∀ acc : ℚ, l.foldl (fun a r => jsAddOpt a (g r)) (some acc) =
      some (acc + (l.map (fun r => (g r).getD 0)).sum) := by
  induction l with
  | nil => intro acc; simp
  | cons r t ih =>
    intro acc
    rcases Option.isSome_iff_exists.mp (h r (List.mem_cons_self r t)) with ⟨q, hq⟩
    rw [List.foldl_cons]
    have hstep : jsAddOpt (some acc) (g r) = some (acc + q) := by
      rw [hq]
      rfl
    rw [hstep, ih (fun r0 hr0 => h r0 (List.mem_cons_of_mem r hr0)) (acc + q)]
    simp only [List.map_cons, List.sum_cons, hq, Option.getD_some]
    rw [add_assoc]

theorem pivotFold_preserve (m : String) (tR : List Row) (k : String) (ks : List Val)
    (hks : ∀ u ∈ ks, valKeyStr u ≠ k) :
    ∀ s : Row, jsGet (ks.foldl (fun row u =>
      match pivotTotalCell m tR (valKeyStr u) with
      | some v => setVal row (valKeyStr u) v
      | none => row) s) k = jsGet s k := by
  induction ks with
  | nil => intro s; rfl
  | cons u t ih =>
    intro s
    rw [List.foldl_cons]
    rw [ih (fun u0 hu0 => hks u0 (List.mem_cons_of_mem u hu0))]
    cases hc : pivotTotalCell m tR (valKeyStr u) with
    | none => rfl
    | some v =>
      exact jsGet_setVal_ne s (valKeyStr u) k v (hks u (List.mem_cons_self u t))

theorem pivotFold_get (m : String) (tR : List Row) (k : String) (ks : List Val)
    (hex : ∃ u ∈ ks, valKeyStr u = k) (hv : (pivotTotalCell m tR k).isSome) :
    ∀ s : Row, jsGet (ks.foldl (fun row u =>
      match pivotTotalCell m tR (valKeyStr u) with
      | some v => setVal row (valKeyStr u) v
      | none => row) s) k = (pivotTotalCell m tR k).getD .undef := by
  induction ks with
  | nil =>
    rcases hex with ⟨u, hu, _⟩
    cases hu
  | cons u t ih =>
    intro s
    rw [List.foldl_cons]
    by_cases hext : ∃ u0 ∈ t, valKeyStr u0 = k
    · exact ih hext _
    · have hk : valKeyStr u = k := by
        rcases hex with ⟨u0, hu0, hku0⟩
        rcases List.mem_cons.mp hu0 with rfl | hu0
        · exact hku0
        · exact absurd ⟨u0, hu0, hku0⟩ hext
      have hpres : ∀ u0 ∈ t, valKeyStr u0 ≠ k := by
        intro u0 hu0 hku0
        exact hext ⟨u0, hu0, hku0⟩
      rw [pivotFold_preserve m tR k t hpres]
      rcases Option.isSome_iff_exists.mp hv with ⟨v, hvv⟩
      rw [hk, hvv]
      simp [jsGet_setVal_self]

theorem pivotTotalCell_eq (m : String) (tR : List Row) (ukey : String) (hne : tR ≠ []) :
    pivotTotalCell m tR ukey = some (totalsCellPos m tR ukey) := by
  cases tR with
  | nil => exact absurd rfl hne
  | cons first rest =>
    simp only [pivotTotalCell, totalsCellPos]
    by_cases hdur : (match jsGet first ukey with
      | .str s => containsSub s.data [':']
      | _ => false) = true
    · rw [if_pos hdur, if_pos hdur]
      by_cases hp : strStartsWith m "Promedio" = true
      · by_cases hc : 0 < ((first :: rest).filter
            (fun r => decide (0 < parseDurationV (jsGet r ukey)))).length
        · rw [if_pos hp, if_pos hc, if_pos ⟨hp, hc⟩]
        · rw [if_pos hp, if_neg hc, if_neg (fun h => hc h.2)]
      · rw [if_neg hp, if_neg (fun h => hp h.1)]
    · rw [if_neg hdur, if_neg hdur]
      by_cases hpct : strIncludes m "Porcentaje" = true
      · rw [if_pos hpct, if_pos hpct]
        have hposv := posCellVals_spec (first :: rest) ukey
        have hlen : (posCellVals (first :: rest) ukey).length =
            ((first :: rest).filter (fun r => match toNumberV (jsGet r ukey) with
              | some q => decide (0 < q)
              | none => false)).length := by
          rw [hposv, List.length_map]
        by_cases hvl : 0 < ((first :: rest).filter
            (fun r => match toNumberV (jsGet r ukey) with
              | some q => decide (0 < q)
              | none => false)).length
        · rw [if_pos hvl, if_pos (by rw [hlen]; exact hvl)]
          have hparse : ∀ r ∈ (first :: rest).filter
              (fun r => match toNumberV (jsGet r ukey) with
                | some q => decide (0 < q)
                | none => false),
              (parseFloatV (jsGet r ukey)).isSome ∧
                parseFloatV (jsGet r ukey) = toNumberV (jsGet r ukey) := by
            intro r hr
            have hpred0 := List.of_mem_filter hr
            have hpred : (match toNumberV (jsGet r ukey) with
                | some q => decide (0 < q)
                | none => false) = true := hpred0
            cases hn : toNumberV (jsGet r ukey) with
            | none => rw [hn] at hpred; cases hpred
            | some q =>
              rw [hn] at hpred
              have hq : 0 < q := of_decide_eq_true hpred
              have hpf := parseFloat_eq_toNumber_of_pos (jsGet r ukey) q hn hq
              exact ⟨by rw [hpf]; rfl, hpf⟩
          rw [foldl_jsAddOpt (fun r => parseFloatV (jsGet r ukey)) _
            (fun r hr => (hparse r hr).1) 0]
          have hmaps : ((first :: rest).filter (fun r => match toNumberV (jsGet r ukey) with
                | some q => decide (0 < q)
                | none => false)).map (fun r => (parseFloatV (jsGet r ukey)).getD 0) =
              posCellVals (first :: rest) ukey := by
            rw [hposv]
            exact List.map_congr_left (fun r hr => by rw [(hparse r hr).2])
          rw [hmaps, zero_add, hlen]
        · rw [if_neg hvl, if_neg (by rw [hlen]; exact hvl)]
      · rw [if_neg hpct, if_neg hpct]

/-- C3 (amended): every pivot table that `generatePivotTables` builds ends
in the totals row, and each unit column's totals cell is classified by the
first period row's cell (a colon means duration-valued) and then computed
as the spec describes — duration columns summed and, for metrics starting
with Promedio, divided by the count of rows whose parsed duration is
STRICTLY POSITIVE (the claim said nonzero; the counterexample below
refutes that for negative durations), percentage metrics averaged over the
strictly-positive cell values to two decimals with "0.00" fallback, and
plain numeric columns summed over the numeric-coerced values. -/
theorem pivot_totals_spec (data : List Row) (hne : data ≠ []) (m : String)
    (hm : m ∈ metricsToPivot data) (u : Val) (hu : u ∈ pivotUnits data) :
    pivotTotalRow data m ∈ generatePivotTables data ∧
    pivotTotalCell m (pivotTableRows data m) (valKeyStr u) =
      some (totalsCellPos m (pivotTableRows data m) (valKeyStr u)) ∧
    jsGet (pivotTotalRow data m) (valKeyStr u) =
      totalsCellPos m (pivotTableRows data m) (valKeyStr u) := by
  have htr : pivotTableRows data m ≠ [] := pivotTableRows_ne_nil data hne m
  have hcell := pivotTotalCell_eq m (pivotTableRows data m) (valKeyStr u) htr
  refine ⟨?_, hcell, ?_⟩
  · unfold generatePivotTables
    rw [if_neg (by simpa using hne), if_neg (by simpa using List.ne_nil_of_mem hm)]
    apply List.mem_flatMap.mpr
    refine ⟨m, hm, ?_⟩
    simp only [pivotBlock]
    refine List.mem_append.mpr (Or.inr ?_)
    exact List.mem_singleton.mpr rfl
  · have hget := pivotFold_get m (pivotTableRows data m) (valKeyStr u) (pivotUnits data)
      ⟨u, hu, rfl⟩ (by rw [hcell]; rfl) [("Mes", .str "TOTAL")]
    calc jsGet (pivotTotalRow data m) (valKeyStr u)
        = (pivotTotalCell m (pivotTableRows data m) (valKeyStr u)).getD .undef := hget
      _ = totalsCellPos m (pivotTableRows data m) (valKeyStr u) := by rw [hcell]; rfl

/-- One-row series for the C3 witness. -/
def c3wdata : List Row :=
  [[("Mes_Anio", .str "Enero 2025"), ("Nombre_Unidad", .str "U"),
    ("Cantidad_Tickets", .num 3)]]

/-- Witness for C3 (amended) at a tiny one-metric series. -/
theorem pivot_totals_spec_witness :
    pivotTotalRow c3wdata "Cantidad_Tickets" ∈ generatePivotTables c3wdata ∧
    pivotTotalCell "Cantidad_Tickets" (pivotTableRows c3wdata "Cantidad_Tickets")
      (valKeyStr (Val.str "U")) =
      some (totalsCellPos "Cantidad_Tickets" (pivotTableRows c3wdata "Cantidad_Tickets")
        (valKeyStr (Val.str "U"))) ∧
    jsGet (pivotTotalRow c3wdata "Cantidad_Tickets") (valKeyStr (Val.str "U")) =
      totalsCellPos "Cantidad_Tickets" (pivotTableRows c3wdata "Cantidad_Tickets")
        (valKeyStr (Val.str "U")) :=
  pivot_totals_spec c3wdata (by decide) "Cantidad_Tickets" (by decide)
    (Val.str "U") (by decide)

/-- Two-month series whose Promedio column holds one positive and one
negative duration, separating nonzero-count from positive-count. -/
def c3data : List Row :=
  [[("Mes_Anio", .str "Enero 2025"), ("Nombre_Unidad", .str "U"),
    ("Promedio_Tiempo_Productivo", .str "2:00:00")],
   [("Mes_Anio", .str "Febrero 2025"), ("Nombre_Unidad", .str "U"),
    ("Promedio_Tiempo_Productivo", .str "-1:00:00")]]

unseal Rat.add Rat.mul Rat.sub Rat.inv in
/-- C3 counterexample: with parsed durations 7200 and −3600 seconds, the
code divides the 3600-second total by 1 (the strictly positive row count),
giving "1:00:00", while the claim's nonzero-row count of 2 would give
"0:30:00" — so the claim as stated is false on this input. -/
theorem pivot_totals_nonzero_counterexample :
    jsGet (pivotTotalRow c3data "Promedio_Tiempo_Productivo") "U" = .str "1:00:00" ∧
    totalsCellNonzero "Promedio_Tiempo_Productivo"
      (pivotTableRows c3data "Promedio_Tiempo_Productivo") "U" = .str "0:30:00" ∧
    Val.str "1:00:00" ≠ Val.str "0:30:00" := by
  refine ⟨by decide, by decide, by decide⟩

/-! ## Claim C1: gap-filler completeness and ordering -/

theorem gapSlot_singleton (data : List Row) (keys : List String) (u : Val) (month : String)
    (hmk : "Mes_Anio" ∈ keys) (huk : "Nombre_Unidad" ∈ keys) :
    ∃ r, gapSlot data keys u month = [r] ∧
      jsGet r "Mes_Anio" = .str month ∧ jsGet r "Nombre_Unidad" = u := by
  unfold gapSlot
  by_cases hc : ((unitRowsOf data u).map (fun r => jsGet r "Mes_Anio")).contains
      (Val.str month) = true
  · rw [if_pos hc]
    cases hfind : (unitRowsOf data u).find? (fun r => jsGet r "Mes_Anio" == Val.str month) with
    | none =>
      exfalso
      have hmem : Val.str month ∈ (unitRowsOf data u).map (fun r => jsGet r "Mes_Anio") := by
        simpa using hc
      rcases List.mem_map.mp hmem with ⟨r0, hr0, hmes⟩
      have hnone := List.find?_eq_none.mp hfind r0 hr0
      rw [hmes] at hnone
      simp at hnone
    | some r =>
      refine ⟨r, rfl, ?_, ?_⟩
      · have hpred := List.find?_some hfind
        simpa using hpred
      · have hmem := List.mem_of_find?_eq_some hfind
        have := (List.mem_filter.mp hmem).2
        simpa using this
  · rw [if_neg hc]
    refine ⟨zeroRow keys month u, rfl, ?_, ?_⟩
    · rw [jsGet_zeroRow _ _ _ _ hmk]
      simp [zeroVal]
    · rw [jsGet_zeroRow _ _ _ _ huk]
      simp [zeroVal]

theorem gapBlock_length (data : List Row) (keys : List String) (u : Val)
    (hmk : "Mes_Anio" ∈ keys) (huk : "Nombre_Unidad" ∈ keys) :
    (gapBlock data keys u).length = 12 := by
  unfold gapBlock
  have haux : ∀ ms : List String, (ms.flatMap (gapSlot data keys u)).length = ms.length := by
    intro ms
    induction ms with
    | nil => rfl
    | cons mo tl ih =>
      rw [List.flatMap_cons, List.length_append, ih]
      rcases gapSlot_singleton data keys u mo hmk huk with ⟨r, hr, _, _⟩
      rw [hr]
      simp [Nat.add_comm]
  rw [haux]
  rfl

theorem length_flatMap_blocks (data : List Row) (keys : List String)
    (hmk : "Mes_Anio" ∈ keys) (huk : "Nombre_Unidad" ∈ keys) :
    ∀ us : List Val, (us.flatMap (gapBlock data keys)).length = 12 * us.length := by
  intro us
  induction us with
  | nil => rfl
  | cons u tl ih =>
    rw [List.flatMap_cons, List.length_append, ih, gapBlock_length data keys u hmk huk]
    rw [List.length_cons]
    ring

theorem countP_gapSlot (data : List Row) (keys : List String) (u : Val) (month : String)
    (hmk : "Mes_Anio" ∈ keys) (huk : "Nombre_Unidad" ∈ keys) (month0 : String) (u0 : Val) :
    ((gapSlot data keys u month).countP (fun r =>
        jsGet r "Mes_Anio" == Val.str month0 && jsGet r "Nombre_Unidad" == u0)) =
      if month = month0 ∧ u = u0 then 1 else 0 := by
  rcases gapSlot_singleton data keys u month hmk huk with ⟨r, hr, hmes, hnu⟩
  rw [hr]
  by_cases hmm : month = month0
  · by_cases huu : u = u0
    · rw [if_pos ⟨hmm, huu⟩]
      simp [List.countP_cons, hmes, hnu, hmm, huu]
    · rw [if_neg (fun h => huu h.2)]
      simp [List.countP_cons, hmes, hnu, huu]
  · rw [if_neg (fun h => hmm h.1)]
    simp [List.countP_cons, hmes, hnu, hmm]

theorem countP_gapBlock (data : List Row) (keys : List String) (u : Val)
    (hmk : "Mes_Anio" ∈ keys) (huk : "Nombre_Unidad" ∈ keys) (month0 : String) (u0 : Val)
    (hm0 : month0 ∈ MONTHS_2025) :
    ((gapBlock data keys u).countP (fun r =>
        jsGet r "Mes_Anio" == Val.str month0 && jsGet r "Nombre_Unidad" == u0)) =
      if u = u0 then 1 else 0 := by
  unfold gapBlock
  have haux : ∀ ms : List String, ms.Nodup →
      ((ms.flatMap (gapSlot data keys u)).countP (fun r =>
        jsGet r "Mes_Anio" == Val.str month0 && jsGet r "Nombre_Unidad" == u0)) =
      if month0 ∈ ms ∧ u = u0 then 1 else 0 := by
    intro ms hnd
    induction ms with
    | nil => simp
    | cons mo tl ih =>
      rw [List.flatMap_cons, List.countP_append,
        countP_gapSlot data keys u mo hmk huk month0 u0,
        ih (List.Nodup.of_cons hnd)]
      by_cases huu : u = u0
      · by_cases hmm : mo = month0
        · subst hmm
          have hnotin : mo ∉ tl := (List.nodup_cons.mp hnd).1
          simp [huu, hnotin]
        · have hmm2 : month0 ≠ mo := fun h => hmm h.symm
          simp [huu, hmm, hmm2]
      · simp [huu]
  rw [haux MONTHS_2025 (by decide)]
  by_cases huu : u = u0
  · rw [if_pos ⟨hm0, huu⟩, if_pos huu]
  · rw [if_neg (fun h => huu h.2), if_neg huu]

theorem countP_blocks (data : List Row) (keys : List String)
    (hmk : "Mes_Anio" ∈ keys) (huk : "Nombre_Unidad" ∈ keys) (month0 : String) (u0 : Val)
    (hm0 : month0 ∈ MONTHS_2025) :
    ∀ us : List Val, us.Nodup →
      ((us.flatMap (gapBlock data keys)).countP (fun r =>
        jsGet r "Mes_Anio" == Val.str month0 && jsGet r "Nombre_Unidad" == u0)) =
      if u0 ∈ us then 1 else 0 := by
  intro us hnd
  induction us with
  | nil => simp
  | cons u tl ih =>
    rw [List.flatMap_cons, List.countP_append,
      countP_gapBlock data keys u hmk huk month0 u0 hm0,
      ih (List.Nodup.of_cons hnd)]
    by_cases huu : u = u0
    · subst huu
      have hnotin : u ∉ tl := (List.nodup_cons.mp hnd).1
      simp [hnotin]
    · have huu2 : u0 ≠ u := fun h => huu h.symm
      simp [huu, huu2]

theorem insertionDedup_nodup (l : List Val) : (insertionDedup l).Nodup := by
  have haux : ∀ (l : List Val) (acc : List Val), acc.Nodup →
      (l.foldl (fun acc v => if v ∈ acc then acc else acc ++ [v]) acc).Nodup := by
    intro l
    induction l with
    | nil => intro acc h; exact h
    | cons v t ih =>
      intro acc h
      rw [List.foldl_cons]
      by_cases hv : v ∈ acc
      · rw [if_pos hv]
        exact ih acc h
      · rw [if_neg hv]
        apply ih
        rw [List.nodup_append]
        refine ⟨h, List.nodup_singleton v, ?_⟩
        intro x hx hxv
        rw [List.mem_singleton] at hxv
        subst hxv
        exact hv hx
  exact haux l [] List.nodup_nil

theorem gapUnits_nodup (data : List Row) : (gapUnits data).Nodup :=
  insertionDedup_nodup _

theorem valLtB_str (x y : String) : valLtB (Val.str x) (Val.str y) = decide (x < y) := rfl

theorem rowLe_char (a b : Row) (sa sb : String)
    (ha : jsGet a "Nombre_Unidad" = Val.str sa) (hb : jsGet b "Nombre_Unidad" = Val.str sb) :
    rowLe a b = true ↔
      (monthIdxV (jsGet a "Mes_Anio") < monthIdxV (jsGet b "Mes_Anio") ∨
       (monthIdxV (jsGet a "Mes_Anio") = monthIdxV (jsGet b "Mes_Anio") ∧ ¬ sb < sa)) := by
  have hstep : rowLe a b =
      (if monthIdxV (jsGet a "Mes_Anio") ≠ monthIdxV (jsGet b "Mes_Anio") then
        decide (monthIdxV (jsGet a "Mes_Anio") < monthIdxV (jsGet b "Mes_Anio"))
      else if valLtB (jsGet a "Nombre_Unidad") (jsGet b "Nombre_Unidad") then true
      else if valLtB (jsGet b "Nombre_Unidad") (jsGet a "Nombre_Unidad") then false
      else true) := rfl
  rw [hstep, ha, hb, valLtB_str, valLtB_str]
  by_cases hm : monthIdxV (jsGet a "Mes_Anio") = monthIdxV (jsGet b "Mes_Anio")
  · rw [if_neg (not_not_intro hm)]
    constructor
    · intro h
      by_cases h2 : sb < sa
      · by_cases h1 : sa < sb
        · exact absurd h2 (lt_asymm h1)
        · rw [if_neg (by simpa using h1), if_pos (by simpa using h2)] at h
          simp at h
      · exact Or.inr ⟨hm, h2⟩
    · rintro (h | ⟨-, h2⟩)
      · exact absurd hm (Nat.ne_of_lt h)
      · by_cases h1 : sa < sb
        · rw [if_pos (by simpa using h1)]
        · rw [if_neg (by simpa using h1), if_neg (by simpa using h2)]
  · rw [if_pos hm]
    constructor
    · intro h
      exact Or.inl (of_decide_eq_true h)
    · rintro (h | ⟨he, -⟩)
      · exact decide_eq_true h
      · exact absurd he hm

theorem rowLe_total_str (x y : Row) (sx sy : String)
    (hx : jsGet x "Nombre_Unidad" = Val.str sx) (hy : jsGet y "Nombre_Unidad" = Val.str sy) :
    rowLe x y = true ∨ rowLe y x = true := by
  rw [rowLe_char x y sx sy hx hy, rowLe_char y x sy sx hy hx]
  rcases Nat.lt_trichotomy (monthIdxV (jsGet x "Mes_Anio")) (monthIdxV (jsGet y "Mes_Anio"))
    with h | h | h
  · exact Or.inl (Or.inl h)
  · by_cases hs : sy < sx
    · exact Or.inr (Or.inr ⟨h.symm, not_lt.mpr hs.le⟩)
    · exact Or.inl (Or.inr ⟨h, hs⟩)
  · exact Or.inr (Or.inl h)

theorem rowLe_trans_str (x y z : Row) (sx sy sz : String)
    (hx : jsGet x "Nombre_Unidad" = Val.str sx) (hy : jsGet y "Nombre_Unidad" = Val.str sy)
    (hz : jsGet z "Nombre_Unidad" = Val.str sz)
    (hxy : rowLe x y = true) (hyz : rowLe y z = true) : rowLe x z = true := by
  rw [rowLe_char x y sx sy hx hy] at hxy
  rw [rowLe_char y z sy sz hy hz] at hyz
  rw [rowLe_char x z sx sz hx hz]
  rcases hxy with h1 | ⟨e1, n1⟩ <;> rcases hyz with h2 | ⟨e2, n2⟩
  · exact Or.inl (h1.trans h2)
  · exact Or.inl (by omega)
  · exact Or.inl (by omega)
  · refine Or.inr ⟨e1.trans e2, ?_⟩
    intro hzx
    have h1' : sx ≤ sy := le_of_not_lt n1
    have h2' : sy ≤ sz := le_of_not_lt n2
    exact absurd hzx (not_lt.mpr (h1'.trans h2'))

theorem mem_stableInsert (le : α → α → Bool) (a : α) (l : List α) (x : α)
    (hx : x ∈ stableInsert le a l) : x = a ∨ x ∈ l := by
  have h := (stableInsert_perm le a l).mem_iff.mp hx
  simpa using h

theorem pairwise_stableInsert (le : α → α → Bool) (a : α) (l : List α)
    (htot : ∀ x ∈ l, le a x = true ∨ le x a = true)
    (htr : ∀ x ∈ l, ∀ y ∈ l, le a x = true → le x y = true → le a y = true)
    (hl : l.Pairwise (fun x y => le x y = true)) :
    (stableInsert le a l).Pairwise (fun x y => le x y = true) := by
  induction l with
  | nil => simp [stableInsert]
  | cons b t ih =>
    rw [List.pairwise_cons] at hl
    obtain ⟨hbt, ht⟩ := hl
    have hstep : stableInsert le a (b :: t) =
        (if le a b then a :: b :: t else b :: stableInsert le a t) := rfl
    rw [hstep]
    by_cases hab : le a b = true
    · rw [if_pos hab]
      refine List.pairwise_cons.mpr ⟨?_, List.pairwise_cons.mpr ⟨hbt, ht⟩⟩
      intro x hx
      rcases List.mem_cons.mp hx with rfl | hx2
      · exact hab
      · exact htr b (List.mem_cons_self b t) x (List.mem_cons_of_mem b hx2) hab (hbt x hx2)
    · rw [if_neg hab]
      have hba : le b a = true := by
        rcases htot b (List.mem_cons_self b t) with h | h
        · exact absurd h hab
        · exact h
      refine List.pairwise_cons.mpr ⟨?_, ?_⟩
      · intro x hx
        rcases mem_stableInsert le a t x hx with rfl | hx2
        · exact hba
        · exact hbt x hx2
      · exact ih (fun x hx => htot x (List.mem_cons_of_mem b hx))
          (fun x hx y hy => htr x (List.mem_cons_of_mem b hx) y (List.mem_cons_of_mem b hy)) ht

theorem pairwise_jsSortBy (le : α → α → Bool) (l : List α)
    (htot : ∀ x ∈ l, ∀ y ∈ l, le x y = true ∨ le y x = true)
    (htr : ∀ x ∈ l, ∀ y ∈ l, ∀ z ∈ l, le x y = true → le y z = true → le x z = true) :
    (jsSortBy le l).Pairwise (fun x y => le x y = true) := by
  induction l with
  | nil => exact List.Pairwise.nil
  | cons a t ih =>
    have hstep : jsSortBy le (a :: t) = stableInsert le a (jsSortBy le t) := rfl
    rw [hstep]
    have hmem : ∀ x ∈ jsSortBy le t, x ∈ t := fun x hx => (mem_jsSortBy le t x).mp hx
    apply pairwise_stableInsert
    · intro x hx
      exact htot a (List.mem_cons_self a t) x (List.mem_cons_of_mem a (hmem x hx))
    · intro x hx y hy hax hxy
      exact htr a (List.mem_cons_self a t) x (List.mem_cons_of_mem a (hmem x hx))
        y (List.mem_cons_of_mem a (hmem y hy)) hax hxy
    · exact ih
        (fun x hx y hy => htot x (List.mem_cons_of_mem a hx) y (List.mem_cons_of_mem a hy))
        (fun x hx y hy z hz => htr x (List.mem_cons_of_mem a hx) y (List.mem_cons_of_mem a hy)
          z (List.mem_cons_of_mem a hz))

theorem monthIdxV_inj : ∀ m1 ∈ MONTHS_2025, ∀ m2 ∈ MONTHS_2025,
    monthIdxV (Val.str m1) = monthIdxV (Val.str m2) → m1 = m2 := by decide

theorem mem_blocks_fields (data : List Row) (keys : List String)
    (hmk : "Mes_Anio" ∈ keys) (huk : "Nombre_Unidad" ∈ keys) (us : List Val) (r : Row)
    (hr : r ∈ us.flatMap (gapBlock data keys)) :
    (∃ m ∈ MONTHS_2025, jsGet r "Mes_Anio" = Val.str m) ∧
      jsGet r "Nombre_Unidad" ∈ us := by
  rcases List.mem_flatMap.mp hr with ⟨u, hu, hblock⟩
  rcases List.mem_flatMap.mp hblock with ⟨m, hm, hslot⟩
  have hf := gapSlot_fields data keys u m hmk huk r hslot
  exact ⟨⟨m, hm, hf.1⟩, by rw [hf.2]; exact hu⟩

/-- C1: when the first row carries both privileged columns and every distinct
unit value is a string, `fillMissingMonths` returns exactly
`12 × (number of distinct units)` rows, each (canonical month, unit) pair
occurring exactly once, every output row carrying a canonical period label and
a known unit, and the sequence pairwise-sorted primarily by canonical period
index and secondarily by unit key in lexicographic string order. -/
theorem gapFiller_complete_sorted (first : Row) (rest : List Row)
    (h1 : first.has "Mes_Anio" = true) (h2 : first.has "Nombre_Unidad" = true)
    (hstr : ∀ u ∈ gapUnits (first :: rest), ∃ s, u = Val.str s) :
    (fillMissingMonths (first :: rest)).length = 12 * (gapUnits (first :: rest)).length ∧
    (∀ month0 ∈ MONTHS_2025, ∀ u0 ∈ gapUnits (first :: rest),
      (fillMissingMonths (first :: rest)).countP (fun r =>
        jsGet r "Mes_Anio" == Val.str month0 && jsGet r "Nombre_Unidad" == u0) = 1) ∧
    (∀ r ∈ fillMissingMonths (first :: rest),
      (∃ m ∈ MONTHS_2025, jsGet r "Mes_Anio" = Val.str m) ∧
      jsGet r "Nombre_Unidad" ∈ gapUnits (first :: rest)) ∧
    (fillMissingMonths (first :: rest)).Pairwise (fun a b =>
      monthIdxV (jsGet a "Mes_Anio") < monthIdxV (jsGet b "Mes_Anio") ∨
      (monthIdxV (jsGet a "Mes_Anio") = monthIdxV (jsGet b "Mes_Anio") ∧
       ∃ sa sb, jsGet a "Nombre_Unidad" = Val.str sa ∧
         jsGet b "Nombre_Unidad" = Val.str sb ∧ sa < sb)) := by
  have hmk : "Mes_Anio" ∈ first.keys := of_decide_eq_true h1
  have huk : "Nombre_Unidad" ∈ first.keys := of_decide_eq_true h2
  have heq := fillMissingMonths_eq first rest h1 h2
  rw [heq]
  set us := gapUnits (first :: rest) with hus
  set L := us.flatMap (gapBlock (first :: rest) first.keys) with hL
  have hperm : (jsSortBy rowLe L).Perm L := jsSortBy_perm rowLe L
  have hfields : ∀ r ∈ jsSortBy rowLe L,
      (∃ m ∈ MONTHS_2025, jsGet r "Mes_Anio" = Val.str m) ∧
        jsGet r "Nombre_Unidad" ∈ us := by
    intro r hr
    exact mem_blocks_fields (first :: rest) first.keys hmk huk us r
      ((mem_jsSortBy _ _ r).mp hr)
  have hcount : ∀ month0 ∈ MONTHS_2025, ∀ u0 ∈ us,
      (jsSortBy rowLe L).countP (fun r =>
        jsGet r "Mes_Anio" == Val.str month0 && jsGet r "Nombre_Unidad" == u0) = 1 := by
    intro month0 hm0 u0 hu0
    rw [hperm.countP_eq]
    rw [countP_blocks (first :: rest) first.keys hmk huk month0 u0 hm0 us (gapUnits_nodup _),
      if_pos hu0]
  have hustrL : ∀ x ∈ L, ∃ s, jsGet x "Nombre_Unidad" = Val.str s := by
    intro x hx
    rcases hstr _ (mem_blocks_fields (first :: rest) first.keys hmk huk us x hx).2
      with ⟨s, hs⟩
    exact ⟨s, hs⟩
  have hple : (jsSortBy rowLe L).Pairwise (fun x y => rowLe x y = true) := by
    apply pairwise_jsSortBy
    · intro x hx y hy
      rcases hustrL x hx with ⟨sx, hsx⟩
      rcases hustrL y hy with ⟨sy, hsy⟩
      exact rowLe_total_str x y sx sy hsx hsy
    · intro x hx y hy z hz
      rcases hustrL x hx with ⟨sx, hsx⟩
      rcases hustrL y hy with ⟨sy, hsy⟩
      rcases hustrL z hz with ⟨sz, hsz⟩
      exact rowLe_trans_str x y z sx sy sz hsx hsy hsz
  refine ⟨?_, hcount, hfields, ?_⟩
  · rw [hperm.length_eq]
    exact length_flatMap_blocks (first :: rest) first.keys hmk huk us
  · rw [List.pairwise_iff_forall_sublist]
    intro a b hsub
    have hab : rowLe a b = true := List.pairwise_iff_forall_sublist.mp hple hsub
    have hamem : a ∈ jsSortBy rowLe L := hsub.subset (List.mem_cons_self a [b])
    have hbmem : b ∈ jsSortBy rowLe L :=
      hsub.subset (List.mem_cons_of_mem a (List.mem_cons_self b []))
    obtain ⟨⟨ma, hma, hmesa⟩, hua⟩ := hfields a hamem
    obtain ⟨⟨mb, hmb, hmesb⟩, hub⟩ := hfields b hbmem
    rcases hstr _ hua with ⟨sa, hsa⟩
    rcases hstr _ hub with ⟨sb, hsb⟩
    have hchar := (rowLe_char a b sa sb hsa hsb).mp hab
    rcases hchar with hlt | ⟨heqm, hnlt⟩
    · exact Or.inl hlt
    · right
      have hml : ma = mb := by
        have heqm2 : monthIdxV (Val.str ma) = monthIdxV (Val.str mb) := by
          rw [← hmesa, ← hmesb]; exact heqm
        exact monthIdxV_inj ma hma mb hmb heqm2
      have hne : sa ≠ sb := by
        intro hss
        have hpa : (jsGet a "Mes_Anio" == Val.str ma &&
            jsGet a "Nombre_Unidad" == Val.str sa) = true := by
          simp [hmesa, hsa]
        have hpb : (jsGet b "Mes_Anio" == Val.str ma &&
            jsGet b "Nombre_Unidad" == Val.str sa) = true := by
          simp [hmesb, hsb, hml, hss]
        have h2c : ([a, b].countP (fun r => jsGet r "Mes_Anio" == Val.str ma &&
            jsGet r "Nombre_Unidad" == Val.str sa)) = 2 := by
          simp [List.countP_cons, hpa, hpb]
        have hle := hsub.countP_le (fun r => jsGet r "Mes_Anio" == Val.str ma &&
            jsGet r "Nombre_Unidad" == Val.str sa)
        rw [h2c, hcount ma hma (Val.str sa) (by rw [← hsa]; exact hua)] at hle
        omega
      refine ⟨heqm, sa, sb, hsa, hsb, ?_⟩
      rcases lt_trichotomy sa sb with h | h | h
      · exact h
      · exact absurd h hne
      · exact absurd h hnlt

/-- One-row, one-unit January series for the C1 witness. -/
def c1data : List Row :=
  [[("Mes_Anio", Val.str "Enero 2025"), ("Nombre_Unidad", Val.str "U")]]

/-- Witness for C1: the single-unit January series gap-fills to 12 rows,
each (month, U) pair once, in sorted order. -/
theorem gapFiller_complete_sorted_witness :
    (fillMissingMonths c1data).length = 12 * (gapUnits c1data).length ∧
    (∀ month0 ∈ MONTHS_2025, ∀ u0 ∈ gapUnits c1data,
      (fillMissingMonths c1data).countP (fun r =>
        jsGet r "Mes_Anio" == Val.str month0 && jsGet r "Nombre_Unidad" == u0) = 1) ∧
    (∀ r ∈ fillMissingMonths c1data,
      (∃ m ∈ MONTHS_2025, jsGet r "Mes_Anio" = Val.str m) ∧
      jsGet r "Nombre_Unidad" ∈ gapUnits c1data) ∧
    (fillMissingMonths c1data).Pairwise (fun a b =>
      monthIdxV (jsGet a "Mes_Anio") < monthIdxV (jsGet b "Mes_Anio") ∨
      (monthIdxV (jsGet a "Mes_Anio") = monthIdxV (jsGet b "Mes_Anio") ∧
       ∃ sa sb, jsGet a "Nombre_Unidad" = Val.str sa ∧
         jsGet b "Nombre_Unidad" = Val.str sb ∧ sa < sb)) :=
  gapFiller_complete_sorted
    [("Mes_Anio", Val.str "Enero 2025"), ("Nombre_Unidad", Val.str "U")] []
    (by decide) (by decide)
    (by
      intro u hu
      have hg : gapUnits [[("Mes_Anio", Val.str "Enero 2025"),
          ("Nombre_Unidad", Val.str "U")]] = [Val.str "U"] := by decide
      rw [hg, List.mem_singleton] at hu
      exact ⟨"U", hu⟩)
